import Mathlib

/-!
Verification of the teacher-allocation engine (`src/optimization.py`,
`optimize_teacher_allocation` and `generate_recommendations`) against its
natural-language specification.

Modelling conventions (shallow embedding):
* Python `float` arithmetic is modelled by exact rationals (`ℚ`).  All concrete
  inputs used in counterexamples and witnesses were chosen so that the Python
  double-precision evaluation agrees with the exact rational one (values stay
  far from rounding-tie boundaries, or are dyadic).
* Python `dict`s are association lists (`List (String × _)`) keeping insertion
  order, which matches CPython iteration order; keys are unique in all runs the
  surrounding application produces.
* Python exceptions that the source can actually raise on inputs within the
  basic §3 type/range constraints (`KeyError` on a plain `d[k]` lookup,
  `ValueError` from `min()`/`max()` on an empty sequence, `ZeroDivisionError`
  on `total_students / num_classrooms` with zero classrooms) are modelled by
  `Option`: a stage returns `none` exactly when the Python code raises.
  Divisions that are provably guarded in the source are total `ℚ` divisions.
* `round` is Python 3 round-half-to-even (`rhe`), `int(...)` is truncation
  toward zero (`pytrunc`), `//` is floor division (`pyfdiv`), `%` on numbers
  is Python's floor-sign modulo.
* Fields named `ratio` in the source are called `ratio_q` here (and
  `ideal_ratio` is `ideal_ratio_q`); everything else keeps the source name.
* The prose payload of recommendations (description strings, formatted action
  items) is elided: only the data that influences control flow or that the
  claims mention (branch conditions, scores, timeline, titles) is kept.
-/

namespace TeacherAlloc

/-- Python 3 `round`: round half to even. -/
def rhe (q : ℚ) : ℤ :=
  let f := ⌊q⌋
  let r := q - f
  if r < 1/2 then f
  else if 1/2 < r then f + 1
  else if f % 2 = 0 then f else f + 1

/-- Python `int(...)` on a number: truncation toward zero. -/
def pytrunc (q : ℚ) : ℤ := if 0 ≤ q then ⌊q⌋ else ⌈q⌉

/-- Python `//` on numbers, kept rational (floor division). -/
def pyfdiv (a b : ℚ) : ℚ := (⌊a / b⌋ : ℚ)

/-- Python `%` on numbers with the sign convention of the divisor. -/
def pymod (a b : ℚ) : ℚ := a - b * pyfdiv a b

/-- Ordered-dictionary lookup (`d[k]`, first match). -/
def alookup {α : Type} (m : List (String × α)) (k : String) : Option α :=
  match m with
  | [] => none
  | p :: rest => if p.1 = k then some p.2 else alookup rest k

/-- Ordered-dictionary update of an existing key (`d[k] = f d[k]`), first match. -/
def aupdate {α : Type} (m : List (String × α)) (k : String) (f : α → α) :
    List (String × α) :=
  match m with
  | [] => []
  | p :: rest => if p.1 = k then (p.1, f p.2) :: rest else p :: aupdate rest k f

/-- Stable insertion used by `sortAscByVal` (insert after equal values). -/
def insertAscByVal (x : String × ℤ) : List (String × ℤ) → List (String × ℤ)
  | [] => [x]
  | y :: ys => if y.2 ≤ x.2 then y :: insertAscByVal x ys else x :: y :: ys

/-- Python `sorted(d.items(), key=lambda x: x[1])`: stable, ascending by value. -/
def sortAscByVal (l : List (String × ℤ)) : List (String × ℤ) :=
  l.foldl (fun acc x => insertAscByVal x acc) []

/-- Stable insertion used by `sortDescByVal` (insert after ≥ values). -/
def insertDescByVal (x : String × ℤ) : List (String × ℤ) → List (String × ℤ)
  | [] => [x]
  | y :: ys => if x.2 ≤ y.2 then y :: insertDescByVal x ys else x :: y :: ys

/-- Python `sorted(d.items(), key=lambda x: x[1], reverse=True)`: stable, descending. -/
def sortDescByVal (l : List (String × ℤ)) : List (String × ℤ) :=
  l.foldl (fun acc x => insertDescByVal x acc) []

/-- The input dictionary of `optimize_teacher_allocation` (spec §3
`AllocationRequest`).  `ideal_ratio` is named `ideal_ratio_q` here. -/
structure InputData where
  total_students : ℤ
  total_teachers : ℤ
  num_classrooms : ℕ
  min_students_per_teacher : ℤ
  max_students_per_teacher : ℤ
  ideal_ratio_q : ℚ
  max_class_size : ℤ
  subject_names : List String
  subject_difficulties : List (String × ℤ)
  teacher_distribution : List (String × ℚ)
  prioritize_experience : Bool
deriving DecidableEq, Repr

/-- optimization.py lines 27-30: `int(round((percentage / 100) * total_teachers))`
for each subject of `teacher_distribution` (no normalization of percentages). -/
def teachers_per_subject_init (d : InputData) : List (String × ℤ) :=
  d.teacher_distribution.map fun p => (p.1, rhe (p.2 / 100 * d.total_teachers))

/-- optimization.py lines 34-45: one pass over the difficulty-descending
subjects, adding one teacher each until `total_allocated` reaches
`total_teachers` (breaking early).  `none` models the `KeyError` raised by
`teachers_per_subject[subject] += 1` on a subject missing from the map. -/
def add_teachers_pass :
    List (String × ℤ) → List (String × ℤ) → ℤ → ℤ → Option (List (String × ℤ))
  | [], tps, _, _ => some tps
  | s :: rest, tps, ta, tt =>
    if tt ≤ ta then some tps
    else
      match alookup tps s.1 with
      | none => none
      | some _ => add_teachers_pass rest (aupdate tps s.1 fun x => x + 1) (ta + 1) tt

/-- optimization.py lines 47-58: one pass over the difficulty-ascending
subjects, removing one teacher from each subject whose count exceeds 1 until
`total_allocated` is down to `total_teachers` (breaking early). -/
def remove_teachers_pass :
    List (String × ℤ) → List (String × ℤ) → ℤ → ℤ → Option (List (String × ℤ))
  | [], tps, _, _ => some tps
  | s :: rest, tps, ta, tt =>
    if ta ≤ tt then some tps
    else
      match alookup tps s.1 with
      | none => none
      | some v =>
        if 1 < v then
          remove_teachers_pass rest (aupdate tps s.1 fun x => x - 1) (ta - 1) tt
        else remove_teachers_pass rest tps ta tt

/-- optimization.py lines 27-58: rounded per-subject teacher counts plus the
single reconciliation pass (add to hardest subjects on deficit, remove from
easiest subjects above 1 on excess). -/
def teachers_per_subject_final (d : InputData) : Option (List (String × ℤ)) :=
  let tps := teachers_per_subject_init d
  let ta := (tps.map Prod.snd).sum
  if ta < d.total_teachers then
    add_teachers_pass (sortDescByVal d.subject_difficulties) tps ta d.total_teachers
  else if d.total_teachers < ta then
    remove_teachers_pass (sortAscByVal d.subject_difficulties) tps ta d.total_teachers
  else some tps

/-- optimization.py line 63: `total_students / total_teachers if total_teachers > 0 else 15`. -/
def avg_ratio_q (d : InputData) : ℚ :=
  if 0 < d.total_teachers then (d.total_students : ℚ) / d.total_teachers else 15

/-- optimization.py line 67: `max(0.6, min(1.4, (10 - difficulty) / 5))`. -/
def difficulty_factor_wide (diff : ℤ) : ℚ :=
  max (6/10) (min (14/10) ((10 - (diff : ℚ)) / 5))

/-- optimization.py lines 62-69: difficulty-scaled ideal ratio per subject in
`subject_difficulties` (and only those). -/
def ideal_subject_ratios (d : InputData) : List (String × ℚ) :=
  d.subject_difficulties.map fun p => (p.1, avg_ratio_q d * difficulty_factor_wide p.2)

/-- optimization.py lines 72-86: initial per-subject student targets,
`min(int(total_students*0.4), int(round(teachers * ideal_subject_ratios[subject])))`
for subjects with teachers, `0` otherwise.  `none` models the `KeyError` of
`ideal_subject_ratios[subject]` when a subject with teachers has no
difficulty entry (the lookup at line 78 is a plain index, not `.get`). -/
def students_init_pass (ratios : List (String × ℚ)) (S : ℤ) :
    List (String × ℤ) → Option (List (String × ℤ))
  | [] => some []
  | (s, t) :: rest =>
    if 0 < t then
      match alookup ratios s with
      | none => none
      | some r =>
        (students_init_pass ratios S rest).map fun tail =>
          (s, min (pytrunc ((S : ℚ) * (4/10))) (rhe ((t : ℚ) * r))) :: tail
    else
      (students_init_pass ratios S rest).map fun tail => (s, (0 : ℤ)) :: tail

/-- optimization.py lines 92-104: one pass over difficulty-ascending subjects;
while the remainder is positive add one student to each subject, while it is
negative remove one from each subject whose count exceeds 1; break at zero. -/
def students_adjust_pass :
    List (String × ℤ) → List (String × ℤ) → ℤ → Option (List (String × ℤ) × ℤ)
  | [], sps, rem => some (sps, rem)
  | s :: rest, sps, rem =>
    if rem = 0 then some (sps, rem)
    else if 0 < rem then
      match alookup sps s.1 with
      | none => none
      | some _ =>
        students_adjust_pass rest (aupdate sps s.1 fun x => x + 1) (rem - 1)
    else
      match alookup sps s.1 with
      | none => none
      | some v =>
        if 1 < v then
          students_adjust_pass rest (aupdate sps s.1 fun x => x - 1) (rem + 1)
        else students_adjust_pass rest sps rem

/-- optimization.py lines 106-120: final balancing pass walking
`subject_names` once, adding (or removing, with no floor) one student per
subject until `diff` reaches zero or the list is exhausted. -/
def students_balance_pass :
    List String → List (String × ℤ) → ℤ → Option (List (String × ℤ))
  | [], sps, _ => some sps
  | s :: rest, sps, diff =>
    if diff = 0 then some sps
    else if 0 < diff then
      match alookup sps s with
      | none => none
      | some _ => students_balance_pass rest (aupdate sps s fun x => x + 1) (diff - 1)
    else
      match alookup sps s with
      | none => none
      | some _ => students_balance_pass rest (aupdate sps s fun x => x - 1) (diff + 1)

/-- optimization.py lines 62-120: per-subject student targets after the
rounded/capped initial assignment and the two single reconciliation passes. -/
def students_per_subject_final (d : InputData) : Option (List (String × ℤ)) := do
  let tps ← teachers_per_subject_final d
  let sps0 ← students_init_pass (ideal_subject_ratios d) d.total_students tps
  let rem0 := d.total_students - (sps0.map Prod.snd).sum
  let pr ← students_adjust_pass (sortAscByVal d.subject_difficulties) sps0 rem0
  let diff := d.total_students - (pr.1.map Prod.snd).sum
  students_balance_pass d.subject_names pr.1 diff

/-- Spec §3 `SubjectAllocation` (the `ratio` field is `ratio_q`). -/
structure SubjectAlloc where
  teachers_allocated : ℤ
  students_allocated : ℤ
  ratio_q : ℚ
deriving DecidableEq, Repr

/-- optimization.py lines 128-133: per-subject allocation summary over
`subject_names`; ratio is students/teachers, or 0 with no teachers.
`none` models the `KeyError` of the plain lookups when a name is absent. -/
def subject_allocation_build (names : List String)
    (tps sps : List (String × ℤ)) : Option (List (String × SubjectAlloc)) :=
  match names with
  | [] => some []
  | s :: rest =>
    match alookup tps s, alookup sps s with
    | some t, some st =>
      (subject_allocation_build rest tps sps).map fun tail =>
        (s, { teachers_allocated := t, students_allocated := st,
              ratio_q := if 0 < t then (st : ℚ) / t else 0 }) :: tail
    | _, _ => none

/-- optimization.py lines 122-133 composed with the earlier stages. -/
def subject_allocation_final (d : InputData) : Option (List (String × SubjectAlloc)) := do
  let tps ← teachers_per_subject_final d
  let sps ← students_per_subject_final d
  subject_allocation_build d.subject_names tps sps

/-- optimization.py lines 149-151: per-classroom capacity ceiling
`min(avg_students_per_classroom * 1.2, max_class_size)` (or the 1.2 buffer
alone when `max_class_size <= 0`). -/
def max_size_q (d : InputData) : ℚ :=
  let avg := (d.total_students : ℚ) / (d.num_classrooms : ℚ)
  if 0 < d.max_class_size then min (avg * (12/10)) (d.max_class_size : ℚ)
  else avg * (12/10)

/-- optimization.py lines 168-171: remainder-preference order over classroom
indices; interior classrooms first when there are more than three. -/
def extra_classrooms_list (n : ℕ) : List ℕ :=
  if 3 < n then (List.range (n - 1)).drop 1 ++ [0, n - 1] else List.range n

/-- optimization.py lines 162-179: spread one subject's teacher count over the
classrooms: everyone gets `count // n`; classroom `i` gets one extra exactly
when `i < count % n` and `i` is among the first `count % n` entries of
`extra_classrooms_list`. -/
def spread_teachers_one (count : ℤ) (n : ℕ) : List ℤ :=
  let base := count.fdiv n
  let extra := count.fmod n
  let ec := extra_classrooms_list n
  (List.range n).map fun i =>
    base + if (Int.ofNat i < extra ∧ i ∈ ec.take extra.toNat) then 1 else 0

/-- optimization.py lines 155-179: teacher spread for every subject with a
nonzero teacher count (subjects with count 0 are skipped by the `continue`). -/
def teachers_per_classroom_subject (tps : List (String × ℤ)) (n : ℕ) :
    List (String × List ℤ) :=
  (tps.filter fun p => decide (p.2 ≠ 0)).map fun p => (p.1, spread_teachers_one p.2 n)

/-- optimization.py lines 199-212: first student pass for a subject with
teachers, walking `(teacher_count, capacity)` pairs: assign
`min(int(round(share * count)), int(cap), remaining)` and debit capacity.
Returns `(cell, new capacity)` pairs and the remaining students. -/
def proportional_pass (tlsum : ℤ) (count : ℤ) :
    List (ℤ × ℚ) → ℚ → (List (ℚ × ℚ) × ℚ)
  | [], rem => ([], rem)
  | (t, cap) :: rest, rem =>
    let sc : ℚ :=
      if tlsum = 0 then 0
      else min (min ((rhe ((t : ℚ) / (tlsum : ℚ) * (count : ℚ)) : ℤ) : ℚ)
                    ((pytrunc cap : ℤ) : ℚ)) rem
    let next := proportional_pass tlsum count rest (rem - sc)
    ((sc, cap - sc) :: next.1, next.2)

/-- optimization.py lines 225-236: even spread for a subject without teachers:
walk classrooms, break when nothing remains, otherwise assign
`min(remaining // classrooms_left, int(cap))` and debit capacity. -/
def even_pass : List ℚ → ℚ → (List (ℚ × ℚ) × ℚ)
  | [], rem => ([], rem)
  | cap :: rest, rem =>
    if rem ≤ 0 then ((0, cap) :: rest.map fun c => ((0 : ℚ), c), rem)
    else
      let sc := min (pyfdiv rem ((rest.length + 1 : ℕ) : ℚ)) ((pytrunc cap : ℤ) : ℚ)
      let next := even_pass rest (rem - sc)
      ((sc, cap - sc) :: next.1, next.2)

/-- optimization.py lines 214-222 and 238-244: final sweep giving each
classroom with spare capacity `min(capacity, remaining)` more students. -/
def sweep_extra : List (ℚ × ℚ) → ℚ → (List (ℚ × ℚ) × ℚ)
  | [], rem => ([], rem)
  | (cell, cap) :: rest, rem =>
    if 0 < cap ∧ 0 < rem then
      let extra := min cap rem
      let next := sweep_extra rest (rem - extra)
      ((cell + extra, cap - extra) :: next.1, next.2)
    else
      let next := sweep_extra rest rem
      ((cell, cap) :: next.1, next.2)

/-- optimization.py line 194: the subject uses the teacher-proportional branch
exactly when it has a teacher spread with positive sum. -/
def teacher_branch (tpcs : List (String × List ℤ)) (s : String) : Option (List ℤ) :=
  match alookup tpcs s with
  | some tl => if 0 < tl.sum then some tl else none
  | none => none

/-- optimization.py lines 183-244: spread every subject's students over the
classrooms, threading classroom capacities and the local variable
`total_teachers`, which line 196 overwrites with the classroom teacher sum of
each subject that takes the proportional branch (shadowing the input total;
the shadowed value is what line 332 later divides by). -/
def spread_students_all (tpcs : List (String × List ℤ)) :
    List (String × ℤ) → List ℚ → ℤ → (List (String × List ℚ) × List ℚ × ℤ)
  | [], caps, shadow => ([], caps, shadow)
  | (s, count) :: rest, caps, shadow =>
    match teacher_branch tpcs s with
    | some tl =>
      let fp := proportional_pass tl.sum count (tl.zip caps) (count : ℚ)
      let sw := sweep_extra fp.1 fp.2
      let cells := sw.1.map Prod.fst
      let caps' := sw.1.map Prod.snd
      let next := spread_students_all tpcs rest caps' tl.sum
      ((s, cells) :: next.1, next.2.1, next.2.2)
    | none =>
      let fp := even_pass caps (count : ℚ)
      let sw := sweep_extra fp.1 fp.2
      let cells := sw.1.map Prod.fst
      let caps' := sw.1.map Prod.snd
      let next := spread_students_all tpcs rest caps' shadow
      ((s, cells) :: next.1, next.2.1, next.2.2)

/-- Spec §3 `TeacherRecord` (`utilization` kept, students may be fractional
because the source mixes float capacities into the counts). -/
structure TeacherRecord where
  subject : String
  students_assigned : ℚ
  classroom : String
  utilization : ℚ
deriving DecidableEq, Repr

/-- Spec §3 `ClassroomAllocation` (the `ratio` field is `ratio_q`). -/
structure ClassroomAlloc where
  teachers_assigned : ℤ
  students_assigned : ℚ
  subjects : List String
  ratio_q : ℚ
deriving DecidableEq, Repr

/-- optimization.py lines 262-294: the per-teacher records of one
(classroom, subject) cell: `s2a // t2a` each, the first `s2a % t2a` teachers one
more, then the difficulty adjustment factor `clamp((10-diff)/5, 0.7, 1.3)`
re-rounded and clamped to within 2 of the pre-adjustment value, floored at 1. -/
def teacher_records_cell (d : InputData) (s : String) (t2a : ℤ) (s2a : ℚ)
    (i : ℕ) : List TeacherRecord :=
  let base := if 0 < t2a then pyfdiv s2a (t2a : ℚ) else 0
  let extra := if 0 < t2a then pymod s2a (t2a : ℚ) else 0
  let diffc := ((alookup d.subject_difficulties s).getD 5 : ℤ)
  let f := max (7/10) (min (13/10) ((10 - (diffc : ℚ)) / 5))
  (List.range t2a.toNat).map fun tIdx =>
    let sft := if (tIdx : ℚ) < extra then base + 1 else base
    let a0 : ℚ := max 1 ((rhe (sft * f) : ℤ) : ℚ)
    let a1 := if sft + 2 < a0 then sft + 2 else a0
    let a2 := if a1 < sft - 2 then sft - 2 else a1
    { subject := s,
      students_assigned := a2,
      classroom := "Classroom " ++ toString (i + 1),
      utilization :=
        if 0 < d.max_students_per_teacher then
          a2 / (d.max_students_per_teacher : ℚ) * 100
        else 0 }

/-- optimization.py lines 250-294, inner loop over `subject_names` for one
classroom: accumulate teacher/student totals, the subject list and the teacher
records for every subject present in `teachers_per_classroom_subject`.
`none` models the `KeyError` of `students_per_classroom_subject[subject]`. -/
def classroom_fill (d : InputData) (tpcs : List (String × List ℤ))
    (spcs : List (String × List ℚ)) (i : ℕ) :
    List String → ClassroomAlloc → List TeacherRecord →
    Option (ClassroomAlloc × List TeacherRecord)
  | [], cls, recs => some (cls, recs)
  | s :: rest, cls, recs =>
    match alookup tpcs s with
    | none => classroom_fill d tpcs spcs i rest cls recs
    | some tl =>
      match alookup spcs s with
      | none => none
      | some sl =>
        let t2a := tl.getD i 0
        let s2a := sl.getD i 0
        if 0 < t2a ∨ 0 < s2a then
          let cls' :=
            { cls with
              teachers_assigned := cls.teachers_assigned + t2a,
              students_assigned := cls.students_assigned + s2a,
              subjects :=
                if s ∈ cls.subjects then cls.subjects else cls.subjects ++ [s] }
          classroom_fill d tpcs spcs i rest cls'
            (recs ++ teacher_records_cell d s t2a s2a i)
        else classroom_fill d tpcs spcs i rest cls recs

/-- optimization.py lines 246-300 for classroom `i`: fill it from the spread
and set its ratio (`students/teachers`, or 0 without teachers). -/
def classroom_build_one (d : InputData) (tpcs : List (String × List ℤ))
    (spcs : List (String × List ℚ)) (i : ℕ) :
    Option (ClassroomAlloc × List TeacherRecord) :=
  (classroom_fill d tpcs spcs i d.subject_names
      { teachers_assigned := 0, students_assigned := 0, subjects := [], ratio_q := 0 }
      []).map fun pr =>
    ({ pr.1 with
        ratio_q :=
          if 0 < pr.1.teachers_assigned then
            pr.1.students_assigned / (pr.1.teachers_assigned : ℚ)
          else 0 }, pr.2)

/-- optimization.py lines 246-303 over all classrooms, concatenating the
teacher records in classroom order. -/
def classrooms_build :
    InputData → List (String × List ℤ) → List (String × List ℚ) → List ℕ →
    Option (List ClassroomAlloc × List TeacherRecord)
  | _, _, _, [] => some ([], [])
  | d, tpcs, spcs, i :: rest => do
    let pr ← classroom_build_one d tpcs spcs i
    let tail ← classrooms_build d tpcs spcs rest
    some (pr.1 :: tail.1, pr.2 ++ tail.2)

/-- optimization.py lines 135-303 composed: the classroom allocations, teacher
records and the final (possibly shadowed) value of the `total_teachers`
variable.  `none` on zero classrooms models the `ZeroDivisionError` of
`total_students / num_classrooms` at line 150. -/
def classrooms_stage (d : InputData) :
    Option (List ClassroomAlloc × List TeacherRecord × ℤ) := do
  if d.num_classrooms = 0 then none
  else
    let tps ← teachers_per_subject_final d
    let sps ← students_per_subject_final d
    let tpcs := teachers_per_classroom_subject tps d.num_classrooms
    let caps0 := List.replicate d.num_classrooms (max_size_q d)
    let sp := spread_students_all tpcs sps caps0 d.total_teachers
    let cr ← classrooms_build d tpcs sp.1 (List.range d.num_classrooms)
    some (cr.1, cr.2, sp.2.2)

/-- optimization.py lines 307-322: weighted student and teacher sums; the
difficulty factor (0.85 for difficulty ≥ 7, 1.15 for ≤ 3, else 1, with a
missing difficulty read as 5 via `.get`) multiplies only the teacher count. -/
def weighted_pair (d : InputData) (salloc : List (String × SubjectAlloc)) : ℚ × ℚ :=
  salloc.foldl
    (fun acc p =>
      let diffc := ((alookup d.subject_difficulties p.1).getD 5 : ℤ)
      let f : ℚ := if 7 ≤ diffc then 85/100 else if diffc ≤ 3 then 115/100 else 1
      (acc.1 + (p.2.students_allocated : ℚ), acc.2 + (p.2.teachers_allocated : ℚ) * f))
    (0, 0)

/-- optimization.py lines 334-341: the single damped pull toward the ideal
ratio when the computed ratio strays more than 20% from it. -/
def pull_to_ideal (d : InputData) (r : ℚ) : ℚ :=
  if d.ideal_ratio_q * (12/10) < r then (r + d.ideal_ratio_q) / 2
  else if r < d.ideal_ratio_q * (8/10) then (r + d.ideal_ratio_q) / 2
  else r

/-- optimization.py lines 305-341: the overall optimized ratio.  The fallback
branch divides `total_students` by the *current* `total_teachers` variable,
which the spreading loop may have shadowed (see `spread_students_all`);
`none` models the `ZeroDivisionError` when that value is zero. -/
def overall_ratio_calc (d : InputData) (salloc : List (String × SubjectAlloc))
    (shadowT : ℤ) : Option ℚ :=
  let wp := weighted_pair d salloc
  if 0 < wp.2 then
    let ef : ℚ := if d.prioritize_experience then 9/10 else 1
    some (pull_to_ideal d (wp.1 / wp.2 * ef))
  else
    if shadowT = 0 then none
    else some (pull_to_ideal d ((d.total_students : ℚ) / (shadowT : ℚ) * (9/10)))

/-- Spec §3 `Recommendation`; the templated prose (description, formatted
action items, impact text) is elided, the branch data is kept. -/
structure Recommendation where
  title : String
  impact_score : ℤ
  ease_score : ℤ
  timeline_start : ℤ
  timeline_duration : ℤ
deriving DecidableEq, Repr

/-- optimization.py lines 394-405: subjects triggering the subject-specific
recommendation (hard subjects above the optimal ratio, easy ones below it). -/
def subject_recommendation_keys (d : InputData) (opt : ℚ)
    (salloc : List (String × SubjectAlloc)) : List String :=
  (salloc.filter fun p =>
    let diffc := ((alookup d.subject_difficulties p.1).getD 5 : ℤ)
    decide ((7 ≤ diffc ∧ opt < p.2.ratio_q) ∨ (diffc ≤ 3 ∧ p.2.ratio_q < opt))).map Prod.fst

/-- optimization.py lines 360-488 `generate_recommendations`: the fixed
catalogue with its branch conditions.  `none` models the `ValueError` raised
by `min()`/`max()` over the empty generator of positive classroom ratios when
there is more than one classroom and no classroom has a positive ratio. -/
def generate_recommendations (d : InputData) (opt : ℚ)
    (teacher_allocation : List TeacherRecord)
    (classroom_allocation : List ClassroomAlloc)
    (salloc : List (String × SubjectAlloc)) : Option (List Recommendation) := do
  let rec1 : Recommendation :=
    { title := "Use the Best Student-Teacher Ratio",
      impact_score := 9, ease_score := 6, timeline_start := 0, timeline_duration := 8 }
  let subjectKeys := subject_recommendation_keys d opt salloc
  let rec2 : List Recommendation :=
    if subjectKeys = [] then []
    else [{ title := "Adjust Each Subject Differently",
            impact_score := 8, ease_score := 5, timeline_start := 2,
            timeline_duration := 6 }]
  let rec3 ←
    if 1 < classroom_allocation.length then
      match (classroom_allocation.map ClassroomAlloc.ratio_q).filter
          (fun r => decide (0 < r)) with
      | [] => none
      | r :: rs =>
        let mn := rs.foldl min r
        let mx := rs.foldl max r
        if 3 < mx - mn then
          some [{ title := "Balance Your Classrooms",
                  impact_score := 7, ease_score := 3, timeline_start := 1,
                  timeline_duration := 4 }]
        else some ([] : List Recommendation)
    else some ([] : List Recommendation)
  let utils := teacher_allocation.map TeacherRecord.utilization
  let avgUtil : ℚ := if utils = [] then 0 else utils.sum / (utils.length : ℚ)
  let rec4 : List Recommendation :=
    if avgUtil < 80 then
      [{ title := "Use Teachers More Efficiently",
         impact_score := 8, ease_score := 4, timeline_start := 4,
         timeline_duration := 10 }]
    else []
  let rec5 : Recommendation :=
    { title := "Plan Staffing Based on Data",
      impact_score := 9, ease_score := 3, timeline_start := 6, timeline_duration := 12 }
  some ([rec1] ++ rec2 ++ rec3 ++ rec4 ++ [rec5])

/-- Spec §3 `OptimizationResult` (`optimal_ratio` is `optimal_ratio_q`). -/
structure OptimizationResult where
  optimal_ratio_q : ℚ
  teacher_allocation : List TeacherRecord
  classroom_allocation : List ClassroomAlloc
  subject_allocation : List (String × SubjectAlloc)
  recommendations : List Recommendation
deriving DecidableEq, Repr

/-- optimization.py lines 4-358 `optimize_teacher_allocation`: the whole
pipeline.  `none` exactly when the Python function raises on the input. -/
def optimize_teacher_allocation (d : InputData) : Option OptimizationResult := do
  let salloc ← subject_allocation_final d
  let cls ← classrooms_stage d
  let opt ← overall_ratio_calc d salloc cls.2.2
  let recs ← generate_recommendations d opt cls.2.1 cls.1 salloc
  some { optimal_ratio_q := opt,
         teacher_allocation := cls.2.1,
         classroom_allocation := cls.1,
         subject_allocation := salloc,
         recommendations := recs }

/-! Concrete inputs used by the counterexamples, failing inputs and witnesses.
All of them satisfy the basic §3 type/range constraints, and all numeric
values were chosen so that Python double arithmetic agrees with the exact
rational evaluation. -/

/-- Failing input for C1: two subjects whose percentages sum to 200. -/
def exC1 : InputData :=
  { total_students := 50, total_teachers := 10, num_classrooms := 1,
    min_students_per_teacher := 5, max_students_per_teacher := 30,
    ideal_ratio_q := 15, max_class_size := 200,
    subject_names := ["Alg", "Bio"],
    subject_difficulties := [("Alg", 5), ("Bio", 5)],
    teacher_distribution := [("Alg", 100), ("Bio", 100)],
    prioritize_experience := true }

/-- Failing input for C2: the 40% cap leaves a residual of 20 students that
the two single passes (2 subjects each) cannot absorb. -/
def exC2 : InputData :=
  { total_students := 100, total_teachers := 10, num_classrooms := 1,
    min_students_per_teacher := 5, max_students_per_teacher := 30,
    ideal_ratio_q := 15, max_class_size := 200,
    subject_names := ["Alg", "Bio"],
    subject_difficulties := [("Alg", 5), ("Bio", 5)],
    teacher_distribution := [("Alg", 50), ("Bio", 50)],
    prioritize_experience := true }

/-- Failing input for C3: subject Bio gets 0% of the teachers but is assigned
2 students by the reconciliation passes. -/
def exC3 : InputData :=
  { total_students := 50, total_teachers := 10, num_classrooms := 1,
    min_students_per_teacher := 5, max_students_per_teacher := 30,
    ideal_ratio_q := 15, max_class_size := 200,
    subject_names := ["Alg", "Bio"],
    subject_difficulties := [("Alg", 5), ("Bio", 5)],
    teacher_distribution := [("Alg", 100), ("Bio", 0)],
    prioritize_experience := true }

/-- Counterexample input for C4: one classroom with ceiling 30 and 42
allocated students. -/
def exC4 : InputData :=
  { total_students := 100, total_teachers := 10, num_classrooms := 1,
    min_students_per_teacher := 5, max_students_per_teacher := 30,
    ideal_ratio_q := 15, max_class_size := 30,
    subject_names := ["Alg"],
    subject_difficulties := [("Alg", 5)],
    teacher_distribution := [("Alg", 100)],
    prioritize_experience := true }

/-- Witness input for the amended C4 (same allocation situation as `exC4`). -/
def exC4w : InputData :=
  { total_students := 100, total_teachers := 10, num_classrooms := 1,
    min_students_per_teacher := 5, max_students_per_teacher := 30,
    ideal_ratio_q := 15, max_class_size := 30,
    subject_names := ["His"],
    subject_difficulties := [("His", 5)],
    teacher_distribution := [("His", 100)],
    prioritize_experience := true }

/-- Failing input for C5: subject Math carries teachers but has no entry in
`subject_difficulties`, so line 78 raises `KeyError`. -/
def exC5 : InputData :=
  { total_students := 30, total_teachers := 2, num_classrooms := 1,
    min_students_per_teacher := 5, max_students_per_teacher := 30,
    ideal_ratio_q := 15, max_class_size := 100,
    subject_names := ["Math", "Sci"],
    subject_difficulties := [("Sci", 4)],
    teacher_distribution := [("Math", 50), ("Sci", 50)],
    prioritize_experience := true }

/-- Witness input for C6. -/
def exC6w : InputData :=
  { total_students := 30, total_teachers := 2, num_classrooms := 1,
    min_students_per_teacher := 5, max_students_per_teacher := 30,
    ideal_ratio_q := 15, max_class_size := 100,
    subject_names := ["Math"],
    subject_difficulties := [("Math", 5)],
    teacher_distribution := [("Math", 100)],
    prioritize_experience := true }

/-- Failing input for C7: 5 teachers over 4 classrooms; the remainder teacher
satisfies `i < 1` only at `i = 0`, but `extra_classrooms[:1] = [1]`, so the
condition at line 177 never fires and one teacher is lost. -/
def exC7 : InputData :=
  { total_students := 40, total_teachers := 5, num_classrooms := 4,
    min_students_per_teacher := 5, max_students_per_teacher := 30,
    ideal_ratio_q := 15, max_class_size := 100,
    subject_names := ["Math"],
    subject_difficulties := [("Math", 5)],
    teacher_distribution := [("Math", 100)],
    prioritize_experience := true }

/-- The C8 boundary family: one subject at 100%, one teacher, one classroom,
neutral difficulty 5, parametrized by the student count. -/
def boundary_input (S : ℤ) : InputData :=
  { total_students := S, total_teachers := 1, num_classrooms := 1,
    min_students_per_teacher := 5, max_students_per_teacher := 30,
    ideal_ratio_q := 15, max_class_size := 200,
    subject_names := ["Math"],
    subject_difficulties := [("Math", 5)],
    teacher_distribution := [("Math", 100)],
    prioritize_experience := true }

/-- Names of the seventeen filler subjects of `exC10`. -/
def gNames : List String := (List.range 17).map fun k => "G" ++ toString (k + 1)

/-- Counterexample input for C10.  Subject F (difficulty 10, 3 teachers) ends
with `students_per_subject = -1` after the unconditional final balancing
pass; its classroom-0 cell is assigned `-1` with no classroom-0 teacher, so
the cell is skipped by the `> 0 or > 0` guard while classroom 0's remaining
capacity was still credited, and later subjects overfill classroom 0 to 3
students against the ceiling `min(1.2 * 10/5, 2) = 2`. -/
def exC10 : InputData :=
  { total_students := 10, total_teachers := 37, num_classrooms := 5,
    min_students_per_teacher := 5, max_students_per_teacher := 30,
    ideal_ratio_q := 10, max_class_size := 2,
    subject_names := "F" :: gNames,
    subject_difficulties := ("F", 10) :: gNames.map fun g => (g, 3),
    teacher_distribution := ("F", 300/37) :: gNames.map fun g => (g, 200/37),
    prioritize_experience := true }

/-- Witness input for the amended C10. -/
def exC10w : InputData :=
  { total_students := 20, total_teachers := 2, num_classrooms := 2,
    min_students_per_teacher := 5, max_students_per_teacher := 30,
    ideal_ratio_q := 10, max_class_size := 15,
    subject_names := ["Geo"],
    subject_difficulties := [("Geo", 5)],
    teacher_distribution := [("Geo", 100)],
    prioritize_experience := true }

unseal Rat.add Rat.mul Rat.sub Rat.inv in
/-- C1.  The spec claims the engine normalizes `teacher_distribution` to 100
and that `subject_allocation` teacher counts always sum to `total_teachers`.
On `exC1` (percentages summing to 200) the engine rounds each share without
normalizing, getting 10 + 10 = 20 teachers, and the single removal pass
(lines 47-58) only removes one teacher per subject, ending at 9 + 9 = 18 ≠ 10,
contradicting the code's own comment `Adjust to ensure we use exactly
total_teachers` (line 32). -/
theorem c1_teachers_sum_code_eval :
    (optimize_teacher_allocation exC1).map
        (fun r => (r.subject_allocation.map fun p => p.2.teachers_allocated).sum) =
      some 18 ∧ exC1.total_teachers = 10 := by decide

unseal Rat.add Rat.mul Rat.sub Rat.inv in
/-- C2.  The spec claims `subject_allocation` student counts always sum to
`total_students` and that the final balancing pass runs until the sum is
exact.  On `exC2` the 40% cap leaves targets 40 + 40 for 100 students; each
of the two single passes (lines 92-104 and 110-120) adds only one student per
subject, ending at 42 + 42 = 84 ≠ 100, contradicting the code's own comments
at lines 88 and 106 (`ensure ... total_students allocated`). -/
theorem c2_students_sum_code_eval :
    (optimize_teacher_allocation exC2).map
        (fun r => (r.subject_allocation.map fun p => p.2.students_allocated).sum) =
      some 84 ∧ exC2.total_students = 100 := by decide

unseal Rat.add Rat.mul Rat.sub Rat.inv in
/-- C3.  The spec claims classroom `students_assigned` sums to the subject
`students_allocated` sum, including subjects with zero teachers.  On `exC3`
subject Bio has 0 teachers and 2 students; lines 223-244 spread those 2
students over the classrooms, but the assembly loop at line 251 only counts
subjects present in `teachers_per_classroom_subject`, so the classroom total
is 22 while the subject total is 24. -/
theorem c3_classroom_sum_code_eval :
    (optimize_teacher_allocation exC3).map
        (fun r =>
          ((r.classroom_allocation.map ClassroomAlloc.students_assigned).sum,
           (r.subject_allocation.map fun p => p.2.students_allocated).sum,
           (r.subject_allocation.map fun p =>
             decide (0 < p.2.students_allocated ∧ p.2.teachers_allocated = 0)))) =
      some (22, 24, [false, true]) := by decide

unseal Rat.add Rat.mul Rat.sub Rat.inv in
/-- C5.  The spec claims no unhandled exception and that a missing difficulty
is treated as 5.  On `exC5` the subject Math has one teacher and no entry in
`subject_difficulties`; `ideal_subject_ratios[subject]` at line 78 is a plain
dictionary index (unlike the `.get(subject, 5)` lookups at lines 269, 311 and
397), so the call raises `KeyError` — modelled here by `none`. -/
theorem c5_missing_difficulty_code_eval :
    optimize_teacher_allocation exC5 = none := by decide

unseal Rat.add Rat.mul Rat.sub Rat.inv in
/-- C7.  The spec claims one `TeacherRecord` per teacher (length
`total_teachers`) whenever every subject with students has teachers.  On
`exC7` (5 teachers, 4 classrooms, one subject with both students and teachers
positive) the remainder condition `i < extra_teachers and i in
extra_classrooms[:extra_teachers]` at line 177 is unsatisfiable for
`extra_teachers = 1` (it needs `i = 0` but the slice is `[1]`), so only 4
records are produced. -/
theorem c7_teacher_records_code_eval :
    (optimize_teacher_allocation exC7).map
        (fun r =>
          ((r.teacher_allocation.length : ℤ),
           r.subject_allocation.all fun p =>
             decide (p.2.students_allocated ≤ 0 ∨ 0 < p.2.teachers_allocated))) =
      some (4, true) ∧ exC7.total_teachers = 5 := by decide

/-- C9.  The whole pipeline is a pure function of the input: the source never
consults a randomness source (`numpy` and `ortools` are imported at lines 1-2
but never used inside `optimize_teacher_allocation`), and the §4.3 step 5
difficulty adjustment is computed from the subject difficulty alone.  Two
calls on the same input dictionary therefore return identical results. -/
theorem c9_optimize_deterministic (d : InputData) :
    optimize_teacher_allocation d = optimize_teacher_allocation d := rfl


/-- Round-half-to-even of an integer is that integer. -/
theorem rhe_intCast (n : ℤ) : rhe ((n : ℚ)) = n := by
  unfold rhe
  simp [Int.floor_intCast]

/-- Python truncation agrees with the floor on nonnegative numbers. -/
theorem pytrunc_of_nonneg {q : ℚ} (h : 0 ≤ q) : pytrunc q = ⌊q⌋ := if_pos h

/-- Stage 1 of the C8 boundary family: the single subject gets the single teacher. -/
theorem c8_teachers (S : ℤ) :
    teachers_per_subject_final (boundary_input S) = some [("Math", 1)] := by
  have h1 : rhe ((100 : ℚ) / 100 * ((1 : ℤ) : ℚ)) = 1 := by
    have h : (100 : ℚ) / 100 * ((1 : ℤ) : ℚ) = ((1 : ℤ) : ℚ) := by norm_num
    rw [h, rhe_intCast]
  have h2 : rhe ((100 : ℚ) / 100 * ((1 : ℕ) : ℚ)) = 1 := by
    have h : ((100 : ℚ) / 100 * ((1 : ℕ) : ℚ)) = ((100 : ℚ) / 100 * ((1 : ℤ) : ℚ)) := by
      norm_num
    rw [h, h1]
  have h3 : rhe (1 : ℚ) = 1 := by
    have h := rhe_intCast 1
    simpa using h
  simp only [teachers_per_subject_final, teachers_per_subject_init, boundary_input]
  simp only [List.map_cons, List.map_nil]
  norm_num [h3]


/-- Stage 2 of the C8 boundary family: the 40% cap limits the single subject to
`int(0.4 * S)` students and the two reconciliation passes add at most one
student each, so the subject ends with `min S (int(0.4 * S) + 2)` students. -/
theorem c8_students (S : ℤ) (hS : 1 ≤ S) :
    students_per_subject_final (boundary_input S) =
      some [("Math", min S (⌊(S : ℚ) * (4/10)⌋ + 2))] := by
  have hfac : difficulty_factor_wide 5 = 1 := by
    unfold difficulty_factor_wide
    norm_num
  have havg : avg_ratio_q (boundary_input S) = (S : ℚ) := by
    unfold avg_ratio_q
    norm_num [boundary_input]
  have hratios : ideal_subject_ratios (boundary_input S) = [("Math", (S : ℚ))] := by
    unfold ideal_subject_ratios
    rw [show (boundary_input S).subject_difficulties = [("Math", 5)] from rfl]
    simp [hfac, havg]
  set C := ⌊(S : ℚ) * (4/10)⌋ with hCdef
  have hC0 : 0 ≤ C := Int.floor_nonneg.mpr (by positivity)
  have hCS : C < S := by
    rw [hCdef, Int.floor_lt]
    have hq : (1 : ℚ) ≤ (S : ℚ) := by exact_mod_cast hS
    nlinarith
  have htr : pytrunc ((S : ℚ) * (4/10)) = C := pytrunc_of_nonneg (by positivity)
  have hrheS : rhe ((S : ℚ)) = S := rhe_intCast S
  have hone : ((1 : ℤ) : ℚ) * (S : ℚ) = (S : ℚ) := by push_cast; ring
  have halook : alookup [("Math", (S : ℚ))] "Math" = some ((S : ℚ)) := by
    simp [alookup]
  have hinit : students_init_pass (ideal_subject_ratios (boundary_input S)) S
      [("Math", 1)] = some [("Math", C)] := by
    rw [hratios]
    simp only [students_init_pass]
    rw [if_pos (by norm_num : (0:ℤ) < 1), halook]
    simp only [hone, htr, hrheS, students_init_pass]
    rw [min_eq_left hCS.le]
    rfl
  have hsorted : sortAscByVal (boundary_input S).subject_difficulties = [("Math", 5)] := rfl
  have halookC : alookup [("Math", C)] "Math" = some C := by simp [alookup]
  have hupC : aupdate [("Math", C)] "Math" (fun x => x + 1) = [("Math", C + 1)] := by
    simp [aupdate]
  have hadj : students_adjust_pass [("Math", 5)] [("Math", C)] (S - C) =
      some ([("Math", C + 1)], S - C - 1) := by
    have hne : ¬ (S - C = 0) := by omega
    have hpos : 0 < S - C := by omega
    simp only [students_adjust_pass, if_neg hne, if_pos hpos, halookC, hupC]
  have halookC1 : alookup [("Math", C + 1)] "Math" = some (C + 1) := by simp [alookup]
  have hupC1 : aupdate [("Math", C + 1)] "Math" (fun x => x + 1) = [("Math", C + 2)] := by
    simp [aupdate]
    omega
  unfold students_per_subject_final
  rw [c8_teachers]
  simp only [Option.bind_eq_bind, Option.some_bind]
  rw [show (boundary_input S).total_students = S from rfl]
  rw [hinit]
  simp only [Option.some_bind]
  rw [show (List.map Prod.snd [("Math", C)]).sum = C from by simp]
  rw [hsorted, hadj]
  simp only [Option.some_bind]
  rw [show (List.map Prod.snd ([("Math", C + 1)], S - C - 1).1).sum = C + 1 from by simp]
  rw [show (boundary_input S).subject_names = ["Math"] from rfl]
  rcases eq_or_lt_of_le (by omega : C + 1 ≤ S) with heq | hlt
  · have hdiff : S - (C + 1) = 0 := by omega
    rw [hdiff]
    have hmin : S ⊓ (C + 2) = C + 1 := by omega
    rw [hmin]
    simp [students_balance_pass]
  · have hdiff : ¬ (S - (C + 1) = 0) := by omega
    have hpos : 0 < S - (C + 1) := by omega
    have hmin : S ⊓ (C + 2) = C + 2 := by omega
    rw [hmin]
    simp only [students_balance_pass, if_neg hdiff, if_pos hpos, halookC1, hupC1]


/-- C8, amended.  On the boundary input (`total_teachers = 1`,
`num_classrooms = 1`, one subject at 100%, difficulty 5) the single teacher
is NOT allocated all students in general: the subject receives
`min S (int(0.4 * S) + 2)` students (the 40% cap at line 80 plus one student
from each reconciliation pass) and the subject ratio equals that value over 1.
The claimed `ratio = total_students/1` holds exactly when `S ≤ 3`. -/
theorem c8_boundary_amended (S : ℤ) (hS : 1 ≤ S) :
    subject_allocation_final (boundary_input S) =
      some [("Math",
        { teachers_allocated := 1,
          students_allocated := min S (⌊(S : ℚ) * (4/10)⌋ + 2),
          ratio_q := ((min S (⌊(S : ℚ) * (4/10)⌋ + 2) : ℤ) : ℚ) })] := by
  unfold subject_allocation_final
  rw [c8_teachers, c8_students S hS]
  simp only [Option.bind_eq_bind, Option.some_bind]
  rw [show (boundary_input S).subject_names = ["Math"] from rfl]
  simp only [subject_allocation_build, alookup, if_pos rfl]
  norm_num

unseal Rat.add Rat.mul Rat.sub Rat.inv in
/-- C8, counterexample.  At `total_students = 100` the boundary input yields a
subject allocation of 42 students and ratio 42, not the claimed 100 = 100/1. -/
theorem c8_boundary_counterexample :
    subject_allocation_final (boundary_input 100) =
      some [("Math",
        { teachers_allocated := 1, students_allocated := 42, ratio_q := 42 })] ∧
      (boundary_input 100).total_students = 100 := by decide

unseal Rat.add Rat.mul Rat.sub Rat.inv in
/-- Witness for the amended C8, at `S = 10` (6 students, ratio 6). -/
theorem c8_boundary_witness :
    (1 : ℤ) ≤ 10 ∧
    subject_allocation_final (boundary_input 10) =
      some [("Math",
        { teachers_allocated := 1,
          students_allocated := min 10 (⌊((10 : ℤ) : ℚ) * (4/10)⌋ + 2),
          ratio_q := ((min 10 (⌊((10 : ℤ) : ℚ) * (4/10)⌋ + 2) : ℤ) : ℚ) })] :=
  ⟨by decide, c8_boundary_amended 10 (by decide)⟩

/-- C6 claim side, written from the spec sentence: the claimed difficulty
factor (0.85 for difficulty ≥ 7, 1.15 for ≤ 3, else 1). -/
def spec_difficulty_factor (d : InputData) (s : String) : ℚ :=
  if 7 ≤ ((alookup d.subject_difficulties s).getD 5 : ℤ) then 85/100
  else if ((alookup d.subject_difficulties s).getD 5 : ℤ) ≤ 3 then 115/100
  else 1

/-- C6 claim side: `optimal_ratio` as the claim states it —
`(Σ students_allocated) / (Σ teachers_allocated × f) × (0.9 if
prioritize_experience else 1.0)`, falling back to
`total_students/total_teachers × 0.9` when the weighted teacher sum is 0, then
replaced exactly once by its midpoint with `ideal_ratio` when outside
`[0.8, 1.2] × ideal_ratio`. -/
def spec_overall_ratio_q (d : InputData) (salloc : List (String × SubjectAlloc)) : ℚ :=
  let ws := (salloc.map fun p => ((p.2.students_allocated : ℤ) : ℚ)).sum
  let wt := (salloc.map fun p =>
    ((p.2.teachers_allocated : ℤ) : ℚ) * spec_difficulty_factor d p.1).sum
  let raw :=
    if wt = 0 then (d.total_students : ℚ) / (d.total_teachers : ℚ) * (9/10)
    else ws / wt * (if d.prioritize_experience then 9/10 else 1)
  if d.ideal_ratio_q * (12/10) < raw ∨ raw < d.ideal_ratio_q * (8/10) then
    (raw + d.ideal_ratio_q) / 2
  else raw

/-- A first-match lookup hit is a member of the association list. -/
theorem alookup_mem {α : Type} {m : List (String × α)} {k : String} {v : α}
    (h : alookup m k = some v) : (k, v) ∈ m := by
  induction m with
  | nil => simp [alookup] at h
  | cons p rest ih =>
    rw [alookup] at h
    by_cases hk : p.1 = k
    · rw [if_pos hk] at h
      obtain ⟨p1, p2⟩ := p
      injection h with h2
      subst h2
      subst hk
      exact List.mem_cons_self _ _
    · rw [if_neg hk] at h
      exact List.mem_cons_of_mem _ (ih h)

/-- With distinct keys, membership determines the first-match lookup. -/
theorem alookup_self {α : Type} {m : List (String × α)} {k : String} {v : α}
    (hnd : (m.map Prod.fst).Nodup) (h : (k, v) ∈ m) : alookup m k = some v := by
  induction m with
  | nil => simp at h
  | cons p rest ih =>
    rw [List.map_cons, List.nodup_cons] at hnd
    cases h with
    | head =>
      rw [alookup, if_pos rfl]
    | tail _ h =>
      rw [alookup]
      have hk : ¬ (p.1 = k) := by
        intro he
        exact hnd.1 (he ▸ (List.mem_map_of_mem Prod.fst h))
      rw [if_neg hk]
      exact ih hnd.2 h

/-- Unfolding of the pair-accumulating fold of `weighted_pair`. -/
theorem foldl_pair_add {α : Type} (f g : α → ℚ) :
    ∀ (l : List α) (a b : ℚ),
      l.foldl (fun acc p => (acc.1 + f p, acc.2 + g p)) (a, b) =
        (a + (l.map f).sum, b + (l.map g).sum) := by
  intro l
  induction l with
  | nil => intro a b; simp
  | cons x xs ih =>
    intro a b
    simp only [List.foldl_cons, List.map_cons, List.sum_cons]
    rw [ih]
    rw [Prod.mk.injEq]
    exact ⟨by ring, by ring⟩

/-- `weighted_pair` computes the two weighted sums. -/
theorem weighted_pair_eq (d : InputData) (salloc : List (String × SubjectAlloc)) :
    weighted_pair d salloc =
      ((salloc.map fun p => ((p.2.students_allocated : ℤ) : ℚ)).sum,
       (salloc.map fun p =>
         ((p.2.teachers_allocated : ℤ) : ℚ) * spec_difficulty_factor d p.1).sum) := by
  unfold weighted_pair spec_difficulty_factor
  rw [foldl_pair_add]
  simp


/-- Every subject-allocation entry records the teacher-map lookup of its key. -/
theorem subject_allocation_build_teachers {names : List String}
    {tps sps : List (String × ℤ)} {sa : List (String × SubjectAlloc)}
    (h : subject_allocation_build names tps sps = some sa) :
    ∀ p ∈ sa, alookup tps p.1 = some p.2.teachers_allocated := by
  induction names generalizing sa with
  | nil =>
    rw [subject_allocation_build] at h
    injection h with h2
    subst h2
    intro p hp
    simp at hp
  | cons s rest ih =>
    rw [subject_allocation_build] at h
    cases ht : alookup tps s with
    | none => rw [ht] at h; simp at h
    | some t =>
      cases hs : alookup sps s with
      | none => rw [ht, hs] at h; simp at h
      | some st =>
        rw [ht, hs] at h
        cases htail : subject_allocation_build rest tps sps with
        | none => rw [htail] at h; simp at h
        | some tail =>
          rw [htail] at h
          simp only [Option.map_some] at h
          injection h with h2
          subst h2
          intro p hp
          cases hp with
          | head => exact ht
          | tail _ hp => exact ih htail p hp

/-- Every name produces a subject-allocation entry. -/
theorem subject_allocation_build_covers {names : List String}
    {tps sps : List (String × ℤ)} {sa : List (String × SubjectAlloc)}
    (h : subject_allocation_build names tps sps = some sa) :
    ∀ s ∈ names, ∃ a, (s, a) ∈ sa := by
  induction names generalizing sa with
  | nil => intro s hs; simp at hs
  | cons s0 rest ih =>
    rw [subject_allocation_build] at h
    cases ht : alookup tps s0 with
    | none => rw [ht] at h; simp at h
    | some t =>
      cases hs : alookup sps s0 with
      | none => rw [ht, hs] at h; simp at h
      | some st =>
        rw [ht, hs] at h
        cases htail : subject_allocation_build rest tps sps with
        | none => rw [htail] at h; simp at h
        | some tail =>
          rw [htail] at h
          simp only [Option.map_some] at h
          injection h with h2
          subst h2
          intro s hsmem
          cases hsmem with
          | head => exact ⟨_, List.mem_cons_self _ _⟩
          | tail _ hsmem =>
            obtain ⟨a, ha⟩ := ih htail s hsmem
            exact ⟨a, List.mem_cons_of_mem _ ha⟩

/-- The spread leaves the shadowed `total_teachers` variable untouched when no
subject has a classroom teacher spread. -/
theorem spread_shadow_of_empty (subs : List (String × ℤ)) :
    ∀ (caps : List ℚ) (shadow : ℤ),
      (spread_students_all [] subs caps shadow).2.2 = shadow := by
  induction subs with
  | nil => intro caps shadow; rfl
  | cons p rest ih =>
    intro caps shadow
    obtain ⟨s, count⟩ := p
    rw [spread_students_all]
    have hb : teacher_branch [] s = none := rfl
    rw [hb]
    exact ih _ _


/-- The two midpoint branches of `pull_to_ideal` merged, as the claim words it. -/
theorem pull_to_ideal_cases (d : InputData) (r : ℚ) :
    pull_to_ideal d r =
      if d.ideal_ratio_q * (12/10) < r ∨ r < d.ideal_ratio_q * (8/10) then
        (r + d.ideal_ratio_q) / 2
      else r := by
  unfold pull_to_ideal
  by_cases h1 : d.ideal_ratio_q * (12/10) < r
  · rw [if_pos h1, if_pos (Or.inl h1)]
  · rw [if_neg h1]
    by_cases h2 : r < d.ideal_ratio_q * (8/10)
    · rw [if_pos h2, if_pos (Or.inr h2)]
    · rw [if_neg h2, if_neg (by tauto)]

/-- A list of nonnegative rationals summing to zero is all zeros. -/
theorem sum_nonneg_all_zero {l : List ℚ} (h0 : ∀ x ∈ l, 0 ≤ x)
    (hs : l.sum = 0) : ∀ x ∈ l, x = 0 := by
  induction l with
  | nil => intro x hx; simp at hx
  | cons y ys ih =>
    rw [List.sum_cons] at hs
    have hy : 0 ≤ y := h0 y (List.mem_cons_self _ _)
    have hys : 0 ≤ ys.sum :=
      List.sum_nonneg fun x hx => h0 x (List.mem_cons_of_mem _ hx)
    have hy0 : y = 0 := by linarith
    have hsum0 : ys.sum = 0 := by linarith
    intro x hx
    cases hx with
    | head => exact hy0
    | tail _ hx => exact ih (fun z hz => h0 z (List.mem_cons_of_mem _ hz)) hsum0 x hx

/-- The claimed difficulty factor is positive. -/
theorem spec_difficulty_factor_pos (d : InputData) (s : String) :
    0 < spec_difficulty_factor d s := by
  unfold spec_difficulty_factor
  split_ifs <;> norm_num


/-- C6.  The optimal ratio returned by the pipeline equals the claimed
formula: (sum of students_allocated) / (sum of teachers_allocated times the
0.85/1.15/1 difficulty factor) times 0.9 when prioritize_experience (1.0
otherwise), falling back to total_students/total_teachers * 0.9 when the
weighted teacher sum is 0, then replaced exactly once by its midpoint with
ideal_ratio when outside the [0.8, 1.2] * ideal_ratio band.  The fallback
works because the shadowed `total_teachers` variable of line 196 is only
overwritten when some subject has a positive classroom teacher sum, which
cannot happen when the weighted teacher sum is 0 (given nonnegative teacher
counts, e.g. nonnegative percentages). -/
theorem c6_optimal_ratio_refines (d : InputData) (tps : List (String × ℤ))
    (htps : teachers_per_subject_final d = some tps)
    (hkeys : tps.map Prod.fst = d.subject_names)
    (hnodup : d.subject_names.Nodup)
    (htl0 : ∀ p ∈ tps, 0 ≤ p.2) :
    (optimize_teacher_allocation d).map
        (fun r => (r.optimal_ratio_q, r.subject_allocation)) =
      (optimize_teacher_allocation d).map
        (fun r => (spec_overall_ratio_q d r.subject_allocation, r.subject_allocation)) := by
  cases hsa : subject_allocation_final d with
  | none => simp [optimize_teacher_allocation, hsa]
  | some salloc =>
  cases hcls : classrooms_stage d with
  | none => simp [optimize_teacher_allocation, hsa, hcls]
  | some cls =>
  cases hopt : overall_ratio_calc d salloc cls.2.2 with
  | none => simp [optimize_teacher_allocation, hsa, hcls, hopt]
  | some opt =>
  cases hrec : generate_recommendations d opt cls.2.1 cls.1 salloc with
  | none => simp [optimize_teacher_allocation, hsa, hcls, hopt, hrec]
  | some recs =>
  have hbuild : ∃ sps, students_per_subject_final d = some sps ∧
      subject_allocation_build d.subject_names tps sps = some salloc := by
    unfold subject_allocation_final at hsa
    rw [htps] at hsa
    simp only [Option.bind_eq_bind, Option.some_bind] at hsa
    cases hsps : students_per_subject_final d with
    | none => rw [hsps] at hsa; simp at hsa
    | some sps =>
      rw [hsps] at hsa
      simp only [Option.some_bind] at hsa
      exact ⟨sps, rfl, hsa⟩
  obtain ⟨sps, hsps, hbuild⟩ := hbuild
  have hsal0 : ∀ p ∈ salloc, 0 ≤ p.2.teachers_allocated := by
    intro p hp
    have hlk := subject_allocation_build_teachers hbuild p hp
    exact htl0 _ (alookup_mem hlk)
  set ws := (salloc.map fun p => ((p.2.students_allocated : ℤ) : ℚ)).sum with hwsdef
  set wt := (salloc.map fun p =>
    ((p.2.teachers_allocated : ℤ) : ℚ) * spec_difficulty_factor d p.1).sum with hwtdef
  have hwp1 : (weighted_pair d salloc).1 = ws := by rw [weighted_pair_eq d salloc]
  have hwp2 : (weighted_pair d salloc).2 = wt := by rw [weighted_pair_eq d salloc]
  have hwt0 : 0 ≤ wt := by
    rw [hwtdef]
    apply List.sum_nonneg
    intro x hx
    obtain ⟨p, hp, rfl⟩ := List.mem_map.mp hx
    have := hsal0 p hp
    have hf := spec_difficulty_factor_pos d p.1
    positivity
  have hmain : opt = spec_overall_ratio_q d salloc := by
    unfold overall_ratio_calc at hopt
    simp only [] at hopt
    rw [hwp1, hwp2] at hopt
    unfold spec_overall_ratio_q
    simp only []
    rw [← hwsdef, ← hwtdef]
    by_cases hpos : 0 < wt
    · rw [if_pos hpos] at hopt
      injection hopt with hopt
      rw [if_neg (ne_of_gt hpos)]
      rw [← hopt, pull_to_ideal_cases]
    · rw [if_neg hpos] at hopt
      have hz : wt = 0 := le_antisymm (not_lt.mp hpos) hwt0
      have htpszero : ∀ p ∈ tps, p.2 = 0 := by
        intro p hp
        have hmemname : p.1 ∈ d.subject_names := by
          rw [← hkeys]
          exact List.mem_map_of_mem Prod.fst hp
        obtain ⟨a, ha⟩ := subject_allocation_build_covers hbuild p.1 hmemname
        have hlk := subject_allocation_build_teachers hbuild (p.1, a) ha
        have hself : alookup tps p.1 = some p.2 := by
          apply alookup_self _ hp
          rw [hkeys]; exact hnodup
        rw [hself] at hlk
        injection hlk with hlk
        have hnn : ∀ x ∈ (salloc.map fun p =>
            ((p.2.teachers_allocated : ℤ) : ℚ) * spec_difficulty_factor d p.1), 0 ≤ x := by
          intro x hx
          obtain ⟨q, hq, rfl⟩ := List.mem_map.mp hx
          have := hsal0 q hq
          have hf := spec_difficulty_factor_pos d q.1
          positivity
        have hterm := sum_nonneg_all_zero hnn hz _
          (List.mem_map.mpr ⟨(p.1, a), ha, rfl⟩)
        have hfa := spec_difficulty_factor_pos d (p.1, a).1
        have hcast : (((p.1, a).2.teachers_allocated : ℤ) : ℚ) = 0 := by
          rcases mul_eq_zero.mp hterm with h | h
          · exact h
          · exact absurd h (ne_of_gt hfa)
        have hta : (p.1, a).2.teachers_allocated = 0 := by exact_mod_cast hcast
        rw [hlk]
        exact hta
      have hshadow : cls.2.2 = d.total_teachers := by
        unfold classrooms_stage at hcls
        by_cases hn : d.num_classrooms = 0
        · rw [if_pos hn] at hcls; simp at hcls
        · rw [if_neg hn] at hcls
          rw [htps] at hcls
          simp only [Option.bind_eq_bind, Option.some_bind] at hcls
          rw [hsps] at hcls
          simp only [Option.some_bind] at hcls
          have htpcs : teachers_per_classroom_subject tps d.num_classrooms = [] := by
            unfold teachers_per_classroom_subject
            have hfil : tps.filter (fun p => decide (p.2 ≠ 0)) = [] := by
              rw [List.filter_eq_nil]
              intro p hp
              simp [htpszero p hp]
            rw [hfil, List.map_nil]
          rw [htpcs] at hcls
          cases hcr : classrooms_build d [] (spread_students_all []
              sps (List.replicate d.num_classrooms (max_size_q d)) d.total_teachers).1
              (List.range d.num_classrooms) with
          | none => rw [hcr] at hcls; simp at hcls
          | some cr =>
            rw [hcr] at hcls
            simp only [Option.some_bind] at hcls
            injection hcls with hcls
            rw [← hcls]
            exact spread_shadow_of_empty sps _ _
      rw [hshadow] at hopt
      rw [if_pos hz]
      by_cases hT : d.total_teachers = 0
      · rw [if_pos hT] at hopt
        simp at hopt
      · rw [if_neg hT] at hopt
        injection hopt with hopt
        rw [← hopt, pull_to_ideal_cases]
  simp [optimize_teacher_allocation, hsa, hcls, hopt, hrec, hmain]

unseal Rat.add Rat.mul Rat.sub Rat.inv in
/-- Witness for C6 at a concrete input. -/
theorem c6_optimal_ratio_witness :
    (optimize_teacher_allocation exC6w).map
        (fun r => (r.optimal_ratio_q, r.subject_allocation)) =
      (optimize_teacher_allocation exC6w).map
        (fun r => (spec_overall_ratio_q exC6w r.subject_allocation,
                   r.subject_allocation)) :=
  c6_optimal_ratio_refines exC6w [("Math", 2)] (by decide) (by decide) (by decide)
    (by decide)


/-- Python truncation of a nonnegative number stays below it. -/
theorem pytrunc_le {q : ℚ} (h : 0 ≤ q) : ((pytrunc q : ℤ) : ℚ) ≤ q := by
  rw [pytrunc_of_nonneg h]
  exact Int.floor_le q

/-- Python truncation of a nonnegative number is nonnegative. -/
theorem pytrunc_nonneg {q : ℚ} (h : 0 ≤ q) : 0 ≤ pytrunc q := by
  rw [pytrunc_of_nonneg h]
  exact Int.floor_nonneg.mpr h

/-- Round-half-to-even of a nonnegative number is nonnegative. -/
theorem rhe_nonneg {q : ℚ} (h : 0 ≤ q) : 0 ≤ rhe q := by
  have hf : 0 ≤ ⌊q⌋ := Int.floor_nonneg.mpr h
  unfold rhe
  simp only []
  split_ifs <;> omega

/-- An out-of-range or member-based default read of a nonnegative list is
nonnegative. -/
theorem getD_nonneg {l : List ℚ} (h : ∀ x ∈ l, 0 ≤ x) (i : ℕ) : 0 ≤ l.getD i 0 := by
  induction l generalizing i with
  | nil => simp
  | cons x xs ih =>
    cases i with
    | zero => exact h x (List.mem_cons_self _ _)
    | succ j => exact ih (fun y hy => h y (List.mem_cons_of_mem _ hy)) j

/-- The first pass of the teacher branch conserves `cell + capacity` per
classroom (each `(cell, cap')` pair satisfies `cell + cap' = cap`). -/
theorem proportional_pass_add (tlsum count : ℤ) :
    ∀ (zipped : List (ℤ × ℚ)) (rem : ℚ),
      (proportional_pass tlsum count zipped rem).1.map (fun p => p.1 + p.2) =
        zipped.map Prod.snd := by
  intro zipped
  induction zipped with
  | nil => intro rem; rfl
  | cons p rest ih =>
    intro rem
    obtain ⟨t, cap⟩ := p
    rw [proportional_pass]
    simp only [List.map_cons, ih]
    congr 1
    ring

/-- The even-spread pass conserves `cell + capacity` per classroom. -/
theorem even_pass_add :
    ∀ (caps : List ℚ) (rem : ℚ),
      (even_pass caps rem).1.map (fun p => p.1 + p.2) = caps := by
  intro caps
  induction caps with
  | nil => intro rem; rfl
  | cons cap rest ih =>
    intro rem
    rw [even_pass]
    by_cases hr : rem ≤ 0
    · rw [if_pos hr]
      simp only [List.map_cons, List.map_map, zero_add]
      have : ((fun p : ℚ × ℚ => p.1 + p.2) ∘ fun c : ℚ => ((0 : ℚ), c)) = fun c : ℚ => c := by
        funext c
        simp
      rw [this, List.map_id']
    · rw [if_neg hr]
      simp only []
      simp only [List.map_cons, ih]
      congr 1
      ring

/-- The capacity sweep conserves `cell + capacity` per classroom. -/
theorem sweep_extra_add :
    ∀ (l : List (ℚ × ℚ)) (rem : ℚ),
      (sweep_extra l rem).1.map (fun p => p.1 + p.2) = l.map (fun p => p.1 + p.2) := by
  intro l
  induction l with
  | nil => intro rem; rfl
  | cons p rest ih =>
    intro rem
    obtain ⟨cell, cap⟩ := p
    rw [sweep_extra]
    by_cases hc : 0 < cap ∧ 0 < rem
    · rw [if_pos hc]
      simp only [List.map_cons, ih]
      congr 1
      ring
    · rw [if_neg hc]
      simp only [List.map_cons, ih]


/-- Capacities stay nonnegative through the proportional pass (each step
consumes at most `int(cap)`). -/
theorem proportional_pass_caps_nonneg (tlsum count : ℤ) :
    ∀ (zipped : List (ℤ × ℚ)) (rem : ℚ),
      (∀ pr ∈ zipped, 0 ≤ pr.2) →
      ∀ c ∈ (proportional_pass tlsum count zipped rem).1.map Prod.snd, 0 ≤ c := by
  intro zipped
  induction zipped with
  | nil => intro rem h c hc; simp [proportional_pass] at hc
  | cons p rest ih =>
    intro rem h c hc
    obtain ⟨t, cap⟩ := p
    have hcap : (0 : ℚ) ≤ cap := h (t, cap) (List.mem_cons_self _ _)
    rw [proportional_pass] at hc
    simp only [List.map_cons, List.mem_cons] at hc
    rcases hc with hc | hc
    · subst hc
      by_cases hz : tlsum = 0
      · rw [if_pos hz]
        simpa using hcap
      · rw [if_neg hz]
        have hle : min (min ((rhe ((t : ℚ) / (tlsum : ℚ) * (count : ℚ)) : ℤ) : ℚ)
            ((pytrunc cap : ℤ) : ℚ)) rem ≤ ((pytrunc cap : ℤ) : ℚ) :=
          le_trans (min_le_left _ _) (min_le_right _ _)
        have := pytrunc_le hcap
        linarith
    · exact ih _ (fun pr hpr => h pr (List.mem_cons_of_mem _ hpr)) c hc

/-- Capacities stay nonnegative through the even pass. -/
theorem even_pass_caps_nonneg :
    ∀ (caps : List ℚ) (rem : ℚ),
      (∀ x ∈ caps, 0 ≤ x) →
      ∀ c ∈ (even_pass caps rem).1.map Prod.snd, 0 ≤ c := by
  intro caps
  induction caps with
  | nil => intro rem h c hc; simp [even_pass] at hc
  | cons cap rest ih =>
    intro rem h c hc
    have hcap : (0 : ℚ) ≤ cap := h cap (List.mem_cons_self _ _)
    rw [even_pass] at hc
    by_cases hr : rem ≤ 0
    · rw [if_pos hr] at hc
      simp only [List.map_cons, List.map_map, List.mem_cons] at hc
      rcases hc with hc | hc
      · subst hc; exact hcap
      · obtain ⟨x, hx, rfl⟩ := List.mem_map.mp hc
        exact h x (List.mem_cons_of_mem _ hx)
    · rw [if_neg hr] at hc
      simp only [List.map_cons, List.mem_cons] at hc
      rcases hc with hc | hc
      · subst hc
        have hle : min (pyfdiv rem ((rest.length + 1 : ℕ) : ℚ)) ((pytrunc cap : ℤ) : ℚ) ≤
            ((pytrunc cap : ℤ) : ℚ) := min_le_right _ _
        have := pytrunc_le hcap
        linarith
      · exact ih _ (fun x hx => h x (List.mem_cons_of_mem _ hx)) c hc

/-- Capacities stay nonnegative through the sweep. -/
theorem sweep_extra_caps_nonneg :
    ∀ (l : List (ℚ × ℚ)) (rem : ℚ),
      (∀ pr ∈ l, 0 ≤ pr.2) →
      ∀ c ∈ (sweep_extra l rem).1.map Prod.snd, 0 ≤ c := by
  intro l
  induction l with
  | nil => intro rem h c hc; simp [sweep_extra] at hc
  | cons p rest ih =>
    intro rem h c hc
    obtain ⟨cell, cap⟩ := p
    have hcap : (0 : ℚ) ≤ cap := h (cell, cap) (List.mem_cons_self _ _)
    rw [sweep_extra] at hc
    by_cases hg : 0 < cap ∧ 0 < rem
    · rw [if_pos hg] at hc
      simp only [List.map_cons, List.mem_cons] at hc
      rcases hc with hc | hc
      · subst hc
        have : min cap rem ≤ cap := min_le_left _ _
        linarith
      · exact ih _ (fun pr hpr => h pr (List.mem_cons_of_mem _ hpr)) c hc
    · rw [if_neg hg] at hc
      simp only [List.map_cons, List.mem_cons] at hc
      rcases hc with hc | hc
      · subst hc; exact hcap
      · exact ih _ (fun pr hpr => h pr (List.mem_cons_of_mem _ hpr)) c hc


/-- Cells of the proportional pass are nonnegative and the remainder stays
nonnegative (each cell is capped by the running remainder). -/
theorem proportional_pass_cells_nonneg (tlsum count : ℤ)
    (h0t : 0 ≤ tlsum) (h0c : 0 ≤ count) :
    ∀ (zipped : List (ℤ × ℚ)) (rem : ℚ), 0 ≤ rem →
      (∀ pr ∈ zipped, 0 ≤ pr.1 ∧ 0 ≤ pr.2) →
      (∀ c ∈ (proportional_pass tlsum count zipped rem).1.map Prod.fst, 0 ≤ c) ∧
        0 ≤ (proportional_pass tlsum count zipped rem).2 := by
  intro zipped
  induction zipped with
  | nil =>
    intro rem hrem h
    refine ⟨fun c hc => ?_, hrem⟩
    simp [proportional_pass] at hc
  | cons p rest ih =>
    intro rem hrem h
    obtain ⟨t, cap⟩ := p
    have ht : (0 : ℚ) ≤ (t : ℚ) := by
      have := (h (t, cap) (List.mem_cons_self _ _)).1
      exact_mod_cast this
    have hcap : (0 : ℚ) ≤ cap := (h (t, cap) (List.mem_cons_self _ _)).2
    have hsc : ∀ sc : ℚ,
        sc = (if tlsum = 0 then (0 : ℚ)
          else min (min ((rhe ((t : ℚ) / (tlsum : ℚ) * (count : ℚ)) : ℤ) : ℚ)
            ((pytrunc cap : ℤ) : ℚ)) rem) → 0 ≤ sc ∧ sc ≤ rem := by
      intro sc hdef
      by_cases hz : tlsum = 0
      · rw [if_pos hz] at hdef
        exact ⟨le_of_eq hdef.symm, hdef ▸ hrem⟩
      · rw [if_neg hz] at hdef
        have hideal : (0 : ℚ) ≤ ((rhe ((t : ℚ) / (tlsum : ℚ) * (count : ℚ)) : ℤ) : ℚ) := by
          have harg : (0 : ℚ) ≤ (t : ℚ) / (tlsum : ℚ) * (count : ℚ) := by
            apply mul_nonneg
            · apply div_nonneg ht
              exact_mod_cast h0t
            · exact_mod_cast h0c
          exact_mod_cast rhe_nonneg harg
        have htrunc : (0 : ℚ) ≤ ((pytrunc cap : ℤ) : ℚ) := by
          exact_mod_cast pytrunc_nonneg hcap
        constructor
        · rw [hdef]
          exact le_min (le_min hideal htrunc) hrem
        · rw [hdef]
          exact min_le_right _ _
    rw [proportional_pass]
    simp only []
    set sc := (if tlsum = 0 then (0 : ℚ)
      else min (min ((rhe ((t : ℚ) / (tlsum : ℚ) * (count : ℚ)) : ℤ) : ℚ)
        ((pytrunc cap : ℤ) : ℚ)) rem) with hscdef
    obtain ⟨h1, h2⟩ := hsc sc hscdef
    obtain ⟨ihc, ihr⟩ := ih (rem - sc) (by linarith)
      (fun pr hpr => h pr (List.mem_cons_of_mem _ hpr))
    constructor
    · intro c hc
      simp only [List.map_cons, List.mem_cons] at hc
      rcases hc with rfl | hc
      · exact h1
      · exact ihc c hc
    · exact ihr


/-- Cells of the even pass are nonnegative (unconditionally in the remainder:
the pass breaks on a nonpositive remainder). -/
theorem even_pass_cells_nonneg :
    ∀ (caps : List ℚ) (rem : ℚ),
      (∀ x ∈ caps, 0 ≤ x) →
      ∀ c ∈ (even_pass caps rem).1.map Prod.fst, 0 ≤ c := by
  intro caps
  induction caps with
  | nil => intro rem h c hc; simp [even_pass] at hc
  | cons cap rest ih =>
    intro rem h c hc
    have hcap : (0 : ℚ) ≤ cap := h cap (List.mem_cons_self _ _)
    rw [even_pass] at hc
    by_cases hr : rem ≤ 0
    · rw [if_pos hr] at hc
      simp only [List.map_cons, List.map_map, List.mem_cons] at hc
      rcases hc with rfl | hc
      · rfl
      · obtain ⟨x, hx, rfl⟩ := List.mem_map.mp hc
        rfl
    · rw [if_neg hr] at hc
      simp only [List.map_cons, List.mem_cons] at hc
      rcases hc with rfl | hc
      · have hshare : (0 : ℚ) ≤ pyfdiv rem ((rest.length + 1 : ℕ) : ℚ) := by
          unfold pyfdiv
          have : (0 : ℚ) ≤ rem / ((rest.length + 1 : ℕ) : ℚ) := by
            apply div_nonneg (by linarith)
            positivity
          exact_mod_cast Int.floor_nonneg.mpr this
        have htrunc : (0 : ℚ) ≤ ((pytrunc cap : ℤ) : ℚ) := by
          exact_mod_cast pytrunc_nonneg hcap
        exact le_min hshare htrunc
      · exact ih _ (fun x hx => h x (List.mem_cons_of_mem _ hx)) c hc

/-- Sweep cells only grow, so they stay nonnegative. -/
theorem sweep_extra_cells_nonneg :
    ∀ (l : List (ℚ × ℚ)) (rem : ℚ),
      (∀ pr ∈ l, 0 ≤ pr.1) →
      ∀ c ∈ (sweep_extra l rem).1.map Prod.fst, 0 ≤ c := by
  intro l
  induction l with
  | nil => intro rem h c hc; simp [sweep_extra] at hc
  | cons p rest ih =>
    intro rem h c hc
    obtain ⟨cell, cap⟩ := p
    have hcell : (0 : ℚ) ≤ cell := h (cell, cap) (List.mem_cons_self _ _)
    rw [sweep_extra] at hc
    by_cases hg : 0 < cap ∧ 0 < rem
    · rw [if_pos hg] at hc
      simp only [List.map_cons, List.mem_cons] at hc
      rcases hc with rfl | hc
      · have : 0 ≤ min cap rem := le_min hg.1.le hg.2.le
        linarith
      · exact ih _ (fun pr hpr => h pr (List.mem_cons_of_mem _ hpr)) c hc
    · rw [if_neg hg] at hc
      simp only [List.map_cons, List.mem_cons] at hc
      rcases hc with rfl | hc
      · exact hcell
      · exact ih _ (fun pr hpr => h pr (List.mem_cons_of_mem _ hpr)) c hc


/-- Column sum at classroom `i` over all subjects of a student spread. -/
def colSumAt (spcs : List (String × List ℚ)) (i : ℕ) : ℚ :=
  (spcs.map fun p => p.2.getD i 0).sum

/-- Componentwise reading of a `(cell, capacity)` list. -/
theorem map_fst_add_snd_getD (pairs : List (ℚ × ℚ)) (i : ℕ) :
    (pairs.map Prod.fst).getD i 0 + (pairs.map Prod.snd).getD i 0 =
      (pairs.map (fun p => p.1 + p.2)).getD i 0 := by
  induction pairs generalizing i with
  | nil => simp
  | cons p rest ih =>
    cases i with
    | zero => simp
    | succ j =>
      simp only [List.map_cons, List.getD_cons_succ]
      exact ih j

/-- `teacher_branch` unpacked. -/
theorem teacher_branch_some {tpcs : List (String × List ℤ)} {s : String}
    {tl : List ℤ} (h : teacher_branch tpcs s = some tl) :
    alookup tpcs s = some tl ∧ 0 < tl.sum := by
  unfold teacher_branch at h
  split at h
  case h_1 tl0 heq =>
    split at h
    · injection h with h
      subst h
      exact ⟨heq, by assumption⟩
    · simp at h
  case h_2 => simp at h

/-- Per classroom, the student spread consumes exactly the capacity drop:
column sum of cells plus final capacity equals initial capacity. -/
theorem spread_cells_caps (tpcs : List (String × List ℤ)) (n : ℕ)
    (htl : ∀ p ∈ tpcs, (p.2 : List ℤ).length = n) :
    ∀ (subs : List (String × ℤ)) (caps : List ℚ) (shadow : ℤ) (i : ℕ),
      caps.length = n →
      colSumAt (spread_students_all tpcs subs caps shadow).1 i +
          (spread_students_all tpcs subs caps shadow).2.1.getD i 0 =
        caps.getD i 0 := by
  intro subs
  induction subs with
  | nil =>
    intro caps shadow i hlen
    simp [spread_students_all, colSumAt]
  | cons p rest ih =>
    intro caps shadow i hlen
    obtain ⟨s, count⟩ := p
    rw [spread_students_all]
    cases hb : teacher_branch tpcs s with
    | some tl =>
      simp only []
      obtain ⟨hlk, hsum⟩ := teacher_branch_some hb
      have htllen : tl.length = n := htl _ (alookup_mem hlk)
      have hzip : (tl.zip caps).map Prod.snd = caps :=
        List.map_snd_zip tl caps (by rw [htllen, hlen])
      have hadd : (sweep_extra (proportional_pass tl.sum count (tl.zip caps)
          (count : ℚ)).1 (proportional_pass tl.sum count (tl.zip caps)
          (count : ℚ)).2).1.map (fun q => q.1 + q.2) = caps := by
        rw [sweep_extra_add, proportional_pass_add, hzip]
      have hcells := map_fst_add_snd_getD (sweep_extra (proportional_pass tl.sum count
        (tl.zip caps) (count : ℚ)).1 (proportional_pass tl.sum count (tl.zip caps)
        (count : ℚ)).2).1 i
      rw [hadd] at hcells
      have hlen2 : ((sweep_extra (proportional_pass tl.sum count (tl.zip caps)
          (count : ℚ)).1 (proportional_pass tl.sum count (tl.zip caps)
          (count : ℚ)).2).1.map Prod.snd).length = n := by
        have := congrArg List.length hadd
        simp only [List.length_map] at this ⊢
        rw [this, hlen]
      have ihx := ih ((sweep_extra (proportional_pass tl.sum count (tl.zip caps)
        (count : ℚ)).1 (proportional_pass tl.sum count (tl.zip caps)
        (count : ℚ)).2).1.map Prod.snd) tl.sum i hlen2
      unfold colSumAt at ihx ⊢
      simp only [List.map_cons, List.sum_cons]
      linarith
    | none =>
      simp only []
      have hadd : (sweep_extra (even_pass caps (count : ℚ)).1
          (even_pass caps (count : ℚ)).2).1.map (fun q => q.1 + q.2) = caps := by
        rw [sweep_extra_add, even_pass_add]
      have hcells := map_fst_add_snd_getD (sweep_extra (even_pass caps (count : ℚ)).1
        (even_pass caps (count : ℚ)).2).1 i
      rw [hadd] at hcells
      have hlen2 : ((sweep_extra (even_pass caps (count : ℚ)).1
          (even_pass caps (count : ℚ)).2).1.map Prod.snd).length = n := by
        have := congrArg List.length hadd
        simp only [List.length_map] at this ⊢
        rw [this, hlen]
      have ihx := ih ((sweep_extra (even_pass caps (count : ℚ)).1
        (even_pass caps (count : ℚ)).2).1.map Prod.snd) shadow i hlen2
      unfold colSumAt at ihx ⊢
      simp only [List.map_cons, List.sum_cons]
      linarith


/-- Capacities stay nonnegative through the whole student spread. -/
theorem spread_caps_nonneg (tpcs : List (String × List ℤ)) :
    ∀ (subs : List (String × ℤ)) (caps : List ℚ) (shadow : ℤ),
      (∀ c ∈ caps, 0 ≤ c) →
      ∀ c ∈ (spread_students_all tpcs subs caps shadow).2.1, 0 ≤ c := by
  intro subs
  induction subs with
  | nil => intro caps shadow h c hc; exact h c hc
  | cons p rest ih =>
    intro caps shadow h c hc
    obtain ⟨s, count⟩ := p
    rw [spread_students_all] at hc
    cases hb : teacher_branch tpcs s with
    | some tl =>
      rw [hb] at hc
      simp only [] at hc
      refine ih _ _ ?_ c hc
      apply sweep_extra_caps_nonneg
      intro pr hpr
      have : pr.2 ∈ (proportional_pass tl.sum count (tl.zip caps) (count : ℚ)).1.map
          Prod.snd := List.mem_map_of_mem Prod.snd hpr
      refine proportional_pass_caps_nonneg tl.sum count _ _ ?_ _ this
      intro q hq
      exact h q.2 (List.of_mem_zip hq).2
    | none =>
      rw [hb] at hc
      simp only [] at hc
      refine ih _ _ ?_ c hc
      apply sweep_extra_caps_nonneg
      intro pr hpr
      have : pr.2 ∈ (even_pass caps (count : ℚ)).1.map Prod.snd :=
        List.mem_map_of_mem Prod.snd hpr
      exact even_pass_caps_nonneg _ _ h _ this

/-- All cells of the student spread are nonnegative, given nonnegative
capacities, per-subject student counts and classroom teacher counts. -/
theorem spread_cells_nonneg (tpcs : List (String × List ℤ))
    (htl0 : ∀ p ∈ tpcs, ∀ t ∈ (p.2 : List ℤ), 0 ≤ t) :
    ∀ (subs : List (String × ℤ)) (caps : List ℚ) (shadow : ℤ),
      (∀ c ∈ caps, 0 ≤ c) → (∀ p ∈ subs, 0 ≤ (p.2 : ℤ)) →
      ∀ q ∈ (spread_students_all tpcs subs caps shadow).1,
        ∀ c ∈ (q.2 : List ℚ), 0 ≤ c := by
  intro subs
  induction subs with
  | nil => intro caps shadow hcap hcnt q hq; simp [spread_students_all] at hq
  | cons p rest ih =>
    intro caps shadow hcap hcnt q hq
    obtain ⟨s, count⟩ := p
    have hcount : (0 : ℤ) ≤ count := hcnt (s, count) (List.mem_cons_self _ _)
    rw [spread_students_all] at hq
    cases hb : teacher_branch tpcs s with
    | some tl =>
      rw [hb] at hq
      simp only [List.mem_cons] at hq
      obtain ⟨hlk, hsum⟩ := teacher_branch_some hb
      have hcapsrest : ∀ c ∈ (sweep_extra (proportional_pass tl.sum count
          (tl.zip caps) (count : ℚ)).1 (proportional_pass tl.sum count (tl.zip caps)
          (count : ℚ)).2).1.map Prod.snd, 0 ≤ c := by
        apply sweep_extra_caps_nonneg
        intro pr hpr
        have : pr.2 ∈ (proportional_pass tl.sum count (tl.zip caps) (count : ℚ)).1.map
            Prod.snd := List.mem_map_of_mem Prod.snd hpr
        refine proportional_pass_caps_nonneg tl.sum count _ _ ?_ _ this
        intro r hr
        exact hcap r.2 (List.of_mem_zip hr).2
      rcases hq with rfl | hq
      · intro c hc
        apply sweep_extra_cells_nonneg _ _ _ c hc
        intro pr hpr
        have hmm : pr.1 ∈ (proportional_pass tl.sum count (tl.zip caps)
            (count : ℚ)).1.map Prod.fst := List.mem_map_of_mem Prod.fst hpr
        refine (proportional_pass_cells_nonneg tl.sum count hsum.le hcount _ _
          (by exact_mod_cast hcount) ?_).1 _ hmm
        intro r hr
        constructor
        · exact htl0 _ (alookup_mem hlk) _ (List.of_mem_zip hr).1
        · exact hcap r.2 (List.of_mem_zip hr).2
      · exact ih _ _ hcapsrest (fun r hr => hcnt r (List.mem_cons_of_mem _ hr)) q hq
    | none =>
      rw [hb] at hq
      simp only [List.mem_cons] at hq
      have hcapsrest : ∀ c ∈ (sweep_extra (even_pass caps (count : ℚ)).1
          (even_pass caps (count : ℚ)).2).1.map Prod.snd, 0 ≤ c := by
        apply sweep_extra_caps_nonneg
        intro pr hpr
        have : pr.2 ∈ (even_pass caps (count : ℚ)).1.map Prod.snd :=
          List.mem_map_of_mem Prod.snd hpr
        exact even_pass_caps_nonneg _ _ hcap _ this
      rcases hq with rfl | hq
      · intro c hc
        apply sweep_extra_cells_nonneg _ _ _ c hc
        intro pr hpr
        have hmm : pr.1 ∈ (even_pass caps (count : ℚ)).1.map Prod.fst :=
          List.mem_map_of_mem Prod.fst hpr
        exact even_pass_cells_nonneg _ _ hcap _ hmm
      · exact ih _ _ hcapsrest (fun r hr => hcnt r (List.mem_cons_of_mem _ hr)) q hq

/-- The spread keeps the subject keys in order. -/
theorem spread_keys (tpcs : List (String × List ℤ)) :
    ∀ (subs : List (String × ℤ)) (caps : List ℚ) (shadow : ℤ),
      (spread_students_all tpcs subs caps shadow).1.map Prod.fst =
        subs.map Prod.fst := by
  intro subs
  induction subs with
  | nil => intro caps shadow; rfl
  | cons p rest ih =>
    intro caps shadow
    obtain ⟨s, count⟩ := p
    rw [spread_students_all]
    cases hb : teacher_branch tpcs s with
    | some tl => simp only [List.map_cons, ih]
    | none => simp only [List.map_cons, ih]


/-- The cell a subject contributes to classroom `i` (0 when absent). -/
def cellAt (spcs : List (String × List ℚ)) (s : String) (i : ℕ) : ℚ :=
  match alookup spcs s with
  | some sl => sl.getD i 0
  | none => 0

/-- Cells being nonnegative makes every `cellAt` nonnegative. -/
theorem cellAt_nonneg {spcs : List (String × List ℚ)}
    (hcells : ∀ q ∈ spcs, ∀ c ∈ (q.2 : List ℚ), 0 ≤ c) (s : String) (i : ℕ) :
    0 ≤ cellAt spcs s i := by
  unfold cellAt
  cases hl : alookup spcs s with
  | none => exact le_refl 0
  | some sl =>
    exact getD_nonneg (fun c hc => hcells _ (alookup_mem hl) c hc) i

/-- The classroom fill adds at most each subject's cell for this classroom
(skipped subjects contribute zero, and included cells are read off `spcs`). -/
theorem classroom_fill_students_le (d : InputData)
    (tpcs : List (String × List ℤ)) (spcs : List (String × List ℚ)) (i : ℕ)
    (hcells : ∀ q ∈ spcs, ∀ c ∈ (q.2 : List ℚ), 0 ≤ c) :
    ∀ (names : List String) (cls : ClassroomAlloc) (recs : List TeacherRecord)
      (out : ClassroomAlloc × List TeacherRecord),
      classroom_fill d tpcs spcs i names cls recs = some out →
      out.1.students_assigned ≤ cls.students_assigned +
        (names.map fun s => cellAt spcs s i).sum := by
  intro names
  induction names with
  | nil =>
    intro cls recs out h
    rw [classroom_fill] at h
    injection h with h
    subst h
    simp
  | cons s rest ih =>
    intro cls recs out h
    rw [classroom_fill] at h
    simp only [List.map_cons, List.sum_cons]
    have hcell0 : 0 ≤ cellAt spcs s i := cellAt_nonneg hcells s i
    cases ht : alookup tpcs s with
    | none =>
      rw [ht] at h
      simp only [] at h
      have := ih cls recs out h
      linarith
    | some tl =>
      rw [ht] at h
      cases hs : alookup spcs s with
      | none => rw [hs] at h; simp at h
      | some sl =>
        rw [hs] at h
        simp only [] at h
        by_cases hg : 0 < tl.getD i 0 ∨ 0 < sl.getD i 0
        · rw [if_pos hg] at h
          have := ih _ _ out h
          have hcell : cellAt spcs s i = sl.getD i 0 := by
            unfold cellAt
            rw [hs]
          simp only [] at this
          rw [hcell]
          linarith
        · rw [if_neg hg] at h
          have := ih cls recs out h
          linarith

/-- Summing the per-name cells equals the column sum when the names are
exactly the spread keys, in order and without duplicates. -/
theorem sum_cellAt_eq :
    ∀ (spcs : List (String × List ℚ)) (names : List String),
      spcs.map Prod.fst = names → names.Nodup → ∀ i,
      (names.map fun s => cellAt spcs s i).sum = colSumAt spcs i := by
  intro spcs
  induction spcs with
  | nil =>
    intro names hkeys hnd i
    rw [← hkeys]
    simp [colSumAt]
  | cons p rest ih =>
    intro names hkeys hnd i
    rw [← hkeys]
    rw [← hkeys] at hnd
    simp only [List.map_cons, List.sum_cons, colSumAt]
    have hhead : cellAt (p :: rest) p.1 i = p.2.getD i 0 := by
      unfold cellAt
      rw [alookup, if_pos rfl]
    rw [hhead]
    have htail : ∀ s ∈ rest.map Prod.fst,
        cellAt (p :: rest) s i = cellAt rest s i := by
      intro s hsmem
      unfold cellAt
      rw [alookup]
      have hne : ¬ (p.1 = s) := by
        intro he
        rw [List.map_cons, List.nodup_cons] at hnd
        exact hnd.1 (he ▸ hsmem)
      rw [if_neg hne]
    have hmapeq : (rest.map Prod.fst).map (fun s => cellAt (p :: rest) s i) =
        (rest.map Prod.fst).map (fun s => cellAt rest s i) :=
      List.map_congr_left htail
    have hnd2 : (rest.map Prod.fst).Nodup := by
      rw [List.map_cons, List.nodup_cons] at hnd
      exact hnd.2
    have := ih (rest.map Prod.fst) rfl hnd2 i
    unfold colSumAt at this
    rw [hmapeq, this]


/-- Per-classroom student total is bounded by the column sum of the spread. -/
theorem classroom_build_one_students_le (d : InputData)
    (tpcs : List (String × List ℤ)) (spcs : List (String × List ℚ)) (i : ℕ)
    (hcells : ∀ q ∈ spcs, ∀ c ∈ (q.2 : List ℚ), 0 ≤ c)
    (hkeys : spcs.map Prod.fst = d.subject_names) (hnodup : d.subject_names.Nodup)
    (pr : ClassroomAlloc × List TeacherRecord)
    (h : classroom_build_one d tpcs spcs i = some pr) :
    pr.1.students_assigned ≤ colSumAt spcs i := by
  unfold classroom_build_one at h
  cases hf : classroom_fill d tpcs spcs i d.subject_names
      { teachers_assigned := 0, students_assigned := 0, subjects := [], ratio_q := 0 }
      [] with
  | none => rw [hf] at h; simp at h
  | some out =>
    rw [hf] at h
    injection h with h
    subst h
    show out.1.students_assigned ≤ colSumAt spcs i
    have hb := classroom_fill_students_le d tpcs spcs i hcells d.subject_names _ _ _ hf
    have hsum := sum_cellAt_eq spcs d.subject_names hkeys hnodup i
    simp at hb
    linarith

/-- Every classroom built by `classrooms_build` obeys a uniform bound on its
per-classroom student total. -/
theorem classrooms_build_students_bound (d : InputData)
    (tpcs : List (String × List ℤ)) (spcs : List (String × List ℚ)) (B : ℚ) :
    ∀ (l : List ℕ) (out : List ClassroomAlloc × List TeacherRecord),
      classrooms_build d tpcs spcs l = some out →
      (∀ i ∈ l, ∀ pr, classroom_build_one d tpcs spcs i = some pr →
        pr.1.students_assigned ≤ B) →
      ∀ c ∈ out.1, c.students_assigned ≤ B := by
  intro l
  induction l with
  | nil =>
    intro out h hB c hc
    rw [classrooms_build] at h
    injection h with h
    subst h
    simp at hc
  | cons i rest ih =>
    intro out h hB c hc
    rw [classrooms_build] at h
    cases h1 : classroom_build_one d tpcs spcs i with
    | none => rw [h1] at h; simp at h
    | some pr =>
      rw [h1] at h
      cases h2 : classrooms_build d tpcs spcs rest with
      | none => rw [h2] at h; simp at h
      | some tail =>
        rw [h2] at h
        simp only [Option.bind_eq_bind, Option.some_bind] at h
        injection h with h
        subst h
        simp only [List.mem_cons] at hc
        rcases hc with rfl | hc
        · exact hB i (List.mem_cons_self _ _) pr h1
        · exact ih tail h2 (fun j hj => hB j (List.mem_cons_of_mem _ hj)) c hc

/-- The total of the built classrooms is bounded by the total of the
per-classroom bounds. -/
theorem classrooms_build_sum_le (d : InputData)
    (tpcs : List (String × List ℤ)) (spcs : List (String × List ℚ)) (g : ℕ → ℚ) :
    ∀ (l : List ℕ) (out : List ClassroomAlloc × List TeacherRecord),
      classrooms_build d tpcs spcs l = some out →
      (∀ i ∈ l, ∀ pr, classroom_build_one d tpcs spcs i = some pr →
        pr.1.students_assigned ≤ g i) →
      (out.1.map ClassroomAlloc.students_assigned).sum ≤ (l.map g).sum := by
  intro l
  induction l with
  | nil =>
    intro out h hB
    rw [classrooms_build] at h
    injection h with h
    subst h
    simp
  | cons i rest ih =>
    intro out h hB
    rw [classrooms_build] at h
    cases h1 : classroom_build_one d tpcs spcs i with
    | none => rw [h1] at h; simp at h
    | some pr =>
      rw [h1] at h
      cases h2 : classrooms_build d tpcs spcs rest with
      | none => rw [h2] at h; simp at h
      | some tail =>
        rw [h2] at h
        simp only [Option.bind_eq_bind, Option.some_bind] at h
        injection h with h
        subst h
        simp only [List.map_cons, List.sum_cons]
        have h3 := hB i (List.mem_cons_self _ _) pr h1
        have h4 := ih tail h2 (fun j hj => hB j (List.mem_cons_of_mem _ hj))
        apply add_le_add h3 h4

/-- Reading a replicated list inside its range. -/
theorem getD_replicate {a : ℚ} {n i : ℕ} (h : i < n) :
    (List.replicate n a).getD i 0 = a := by
  induction n generalizing i with
  | zero => omega
  | succ m ih =>
    cases i with
    | zero => rfl
    | succ j =>
      rw [List.replicate_succ, List.getD_cons_succ]
      exact ih (by omega)

/-- The classroom teacher spread of one subject has one entry per classroom. -/
theorem spread_teachers_one_length (count : ℤ) (n : ℕ) :
    (spread_teachers_one count n).length = n := by
  unfold spread_teachers_one
  simp

/-- The classroom teacher spread of a nonnegative count is nonnegative. -/
theorem spread_teachers_one_nonneg {count : ℤ} (h : 0 ≤ count) (n : ℕ) :
    ∀ t ∈ spread_teachers_one count n, 0 ≤ t := by
  intro t ht
  unfold spread_teachers_one at ht
  simp only [List.mem_map, List.mem_range] at ht
  obtain ⟨i, hi, rfl⟩ := ht
  have hbase : 0 ≤ count.fdiv n := Int.fdiv_nonneg h (by positivity)
  split_ifs <;> omega


/-- C10, amended.  The capacity ceiling `min(1.2 * total_students /
num_classrooms, max_class_size)` is a hard per-classroom bound PROVIDED every
per-subject student target is nonnegative (and teacher counts are
nonnegative): every allocation step, including the final sweep, is bounded by
the classroom's remaining capacity, capacities never go negative, and skipped
cells are zero.  Without the nonnegativity proviso the bound fails (see the
counterexample: a negative student target of a teacherless-in-classroom-0
subject credits classroom 0 with phantom capacity that later subjects fill). -/
theorem c10_ceiling_amended (d : InputData) (tps sps : List (String × ℤ))
    (htps : teachers_per_subject_final d = some tps)
    (hsps : students_per_subject_final d = some sps)
    (hkeys : sps.map Prod.fst = d.subject_names)
    (hnodup : d.subject_names.Nodup)
    (htl0 : ∀ p ∈ tps, 0 ≤ p.2)
    (hsp0 : ∀ p ∈ sps, 0 ≤ p.2)
    (hms : 0 ≤ max_size_q d) :
    ∀ pr ∈ classrooms_stage d, ∀ c ∈ (pr.1 : List ClassroomAlloc),
      c.students_assigned ≤ max_size_q d := by
  intro pr hpr c hc
  rw [Option.mem_def] at hpr
  unfold classrooms_stage at hpr
  by_cases hn : d.num_classrooms = 0
  · rw [if_pos hn] at hpr; simp at hpr
  · rw [if_neg hn] at hpr
    rw [htps] at hpr
    simp only [Option.bind_eq_bind, Option.some_bind] at hpr
    rw [hsps] at hpr
    simp only [Option.some_bind] at hpr
    cases hcr : classrooms_build d (teachers_per_classroom_subject tps d.num_classrooms)
        (spread_students_all (teachers_per_classroom_subject tps d.num_classrooms) sps
          (List.replicate d.num_classrooms (max_size_q d)) d.total_teachers).1
        (List.range d.num_classrooms) with
    | none => rw [hcr] at hpr; simp at hpr
    | some cr =>
      rw [hcr] at hpr
      simp only [Option.some_bind] at hpr
      injection hpr with hpr
      have hc1 : c ∈ cr.1 := by
        rw [← hpr] at hc
        exact hc
      have htl_len : ∀ p ∈ teachers_per_classroom_subject tps d.num_classrooms,
          (p.2 : List ℤ).length = d.num_classrooms := by
        intro p hp
        unfold teachers_per_classroom_subject at hp
        obtain ⟨q, hq, rfl⟩ := List.mem_map.mp hp
        exact spread_teachers_one_length q.2 d.num_classrooms
      have htl0n : ∀ p ∈ teachers_per_classroom_subject tps d.num_classrooms,
          ∀ t ∈ (p.2 : List ℤ), 0 ≤ t := by
        intro p hp
        unfold teachers_per_classroom_subject at hp
        obtain ⟨q, hq, rfl⟩ := List.mem_map.mp hp
        have hq2 : q ∈ tps := List.mem_of_mem_filter hq
        exact spread_teachers_one_nonneg (htl0 q hq2) d.num_classrooms
      have hcaps0nn : ∀ x ∈ List.replicate d.num_classrooms (max_size_q d), 0 ≤ x := by
        intro x hx
        rw [List.eq_of_mem_replicate hx]
        exact hms
      have hcells := spread_cells_nonneg
        (teachers_per_classroom_subject tps d.num_classrooms) htl0n sps
        (List.replicate d.num_classrooms (max_size_q d)) d.total_teachers hcaps0nn hsp0
      have hkeys2 : (spread_students_all (teachers_per_classroom_subject tps
          d.num_classrooms) sps (List.replicate d.num_classrooms (max_size_q d))
          d.total_teachers).1.map Prod.fst = d.subject_names := by
        rw [spread_keys, hkeys]
      refine classrooms_build_students_bound d _ _ (max_size_q d) _ cr hcr ?_ c hc1
      intro i hi pr2 h1
      have hone := classroom_build_one_students_le d _ _ i hcells hkeys2 hnodup pr2 h1
      have hcons := spread_cells_caps (teachers_per_classroom_subject tps
        d.num_classrooms) d.num_classrooms htl_len sps
        (List.replicate d.num_classrooms (max_size_q d)) d.total_teachers i
        (List.length_replicate _ _)
      have hcapsF := spread_caps_nonneg (teachers_per_classroom_subject tps
        d.num_classrooms) sps (List.replicate d.num_classrooms (max_size_q d))
        d.total_teachers hcaps0nn
      have h2 : 0 ≤ (spread_students_all (teachers_per_classroom_subject tps
          d.num_classrooms) sps (List.replicate d.num_classrooms (max_size_q d))
          d.total_teachers).2.1.getD i 0 := getD_nonneg hcapsF i
      have h3 : (List.replicate d.num_classrooms (max_size_q d)).getD i 0 =
          max_size_q d := getD_replicate (List.mem_range.mp hi)
      linarith


/-- C4, amended.  With insufficient total capacity the engine still returns a
result, but instead of letting classrooms exceed the ceiling it drops the
surplus: every classroom stays within the ceiling, so the classroom student
total is at most `num_classrooms * ceiling`, hence strictly below the
allocated per-subject student total. -/
theorem c4_capacity_amended (d : InputData) (tps sps : List (String × ℤ))
    (htps : teachers_per_subject_final d = some tps)
    (hsps : students_per_subject_final d = some sps)
    (hkeys : sps.map Prod.fst = d.subject_names)
    (hnodup : d.subject_names.Nodup)
    (htl0 : ∀ p ∈ tps, 0 ≤ p.2)
    (hsp0 : ∀ p ∈ sps, 0 ≤ p.2)
    (hms : 0 ≤ max_size_q d)
    (hover : (d.num_classrooms : ℚ) * max_size_q d <
      (((sps.map Prod.snd).sum : ℤ) : ℚ)) :
    ∀ pr ∈ classrooms_stage d,
      ((pr.1 : List ClassroomAlloc).map ClassroomAlloc.students_assigned).sum <
        (((sps.map Prod.snd).sum : ℤ) : ℚ) := by
  intro pr hpr
  rw [Option.mem_def] at hpr
  unfold classrooms_stage at hpr
  by_cases hn : d.num_classrooms = 0
  · rw [if_pos hn] at hpr; simp at hpr
  · rw [if_neg hn] at hpr
    rw [htps] at hpr
    simp only [Option.bind_eq_bind, Option.some_bind] at hpr
    rw [hsps] at hpr
    simp only [Option.some_bind] at hpr
    cases hcr : classrooms_build d (teachers_per_classroom_subject tps d.num_classrooms)
        (spread_students_all (teachers_per_classroom_subject tps d.num_classrooms) sps
          (List.replicate d.num_classrooms (max_size_q d)) d.total_teachers).1
        (List.range d.num_classrooms) with
    | none => rw [hcr] at hpr; simp at hpr
    | some cr =>
      rw [hcr] at hpr
      simp only [Option.some_bind] at hpr
      injection hpr with hpr
      have hpr1 : (pr.1 : List ClassroomAlloc) = cr.1 := by
        rw [← hpr]
      rw [hpr1]
      have htl_len : ∀ p ∈ teachers_per_classroom_subject tps d.num_classrooms,
          (p.2 : List ℤ).length = d.num_classrooms := by
        intro p hp
        unfold teachers_per_classroom_subject at hp
        obtain ⟨q, hq, rfl⟩ := List.mem_map.mp hp
        exact spread_teachers_one_length q.2 d.num_classrooms
      have htl0n : ∀ p ∈ teachers_per_classroom_subject tps d.num_classrooms,
          ∀ t ∈ (p.2 : List ℤ), 0 ≤ t := by
        intro p hp
        unfold teachers_per_classroom_subject at hp
        obtain ⟨q, hq, rfl⟩ := List.mem_map.mp hp
        have hq2 : q ∈ tps := List.mem_of_mem_filter hq
        exact spread_teachers_one_nonneg (htl0 q hq2) d.num_classrooms
      have hcaps0nn : ∀ x ∈ List.replicate d.num_classrooms (max_size_q d), 0 ≤ x := by
        intro x hx
        rw [List.eq_of_mem_replicate hx]
        exact hms
      have hcells := spread_cells_nonneg
        (teachers_per_classroom_subject tps d.num_classrooms) htl0n sps
        (List.replicate d.num_classrooms (max_size_q d)) d.total_teachers hcaps0nn hsp0
      have hkeys2 : (spread_students_all (teachers_per_classroom_subject tps
          d.num_classrooms) sps (List.replicate d.num_classrooms (max_size_q d))
          d.total_teachers).1.map Prod.fst = d.subject_names := by
        rw [spread_keys, hkeys]
      have hsum := classrooms_build_sum_le d _ _ (fun _ => max_size_q d) _ cr hcr ?_
      · have hconst : ((List.range d.num_classrooms).map
            (fun _ => max_size_q d)).sum = (d.num_classrooms : ℚ) * max_size_q d := by
          rw [List.map_const']
          rw [List.sum_replicate, List.length_range]
          rw [nsmul_eq_mul]
        rw [hconst] at hsum
        calc (cr.1.map ClassroomAlloc.students_assigned).sum
            ≤ (d.num_classrooms : ℚ) * max_size_q d := hsum
          _ < (((sps.map Prod.snd).sum : ℤ) : ℚ) := hover
      · intro i hi pr2 h1
        have hone := classroom_build_one_students_le d _ _ i hcells hkeys2 hnodup pr2 h1
        have hcons := spread_cells_caps (teachers_per_classroom_subject tps
          d.num_classrooms) d.num_classrooms htl_len sps
          (List.replicate d.num_classrooms (max_size_q d)) d.total_teachers i
          (List.length_replicate _ _)
        have hcapsF := spread_caps_nonneg (teachers_per_classroom_subject tps
          d.num_classrooms) sps (List.replicate d.num_classrooms (max_size_q d))
          d.total_teachers hcaps0nn
        have h2 : 0 ≤ (spread_students_all (teachers_per_classroom_subject tps
            d.num_classrooms) sps (List.replicate d.num_classrooms (max_size_q d))
            d.total_teachers).2.1.getD i 0 := getD_nonneg hcapsF i
        have h3 : (List.replicate d.num_classrooms (max_size_q d)).getD i 0 =
            max_size_q d := getD_replicate (List.mem_range.mp hi)
        linarith


unseal Rat.add Rat.mul Rat.sub Rat.inv in
/-- C4, counterexample.  On `exC4` capacity is infeasible (1 classroom with
ceiling 30 for 42 allocated students); the code proceeds but the classroom
total is 30, not 42: 12 students are silently dropped and no classroom ever
exceeds the ceiling, contrary to the claim. -/
theorem c4_capacity_counterexample :
    (optimize_teacher_allocation exC4).map
        (fun r => ((r.classroom_allocation.map ClassroomAlloc.students_assigned).sum,
          (r.subject_allocation.map fun p => p.2.students_allocated).sum)) =
      some (30, 42) ∧ (exC4.num_classrooms : ℚ) * max_size_q exC4 = 30 := by decide

unseal Rat.add Rat.mul Rat.sub Rat.inv in
/-- Witness for the amended C4 at a concrete infeasible input. -/
theorem c4_capacity_witness :
    ((classrooms_stage exC4w).map fun pr =>
        decide (((pr.1 : List ClassroomAlloc).map ClassroomAlloc.students_assigned).sum <
          ((((([("His", (42 : ℤ))]).map Prod.snd).sum : ℤ) : ℚ)))) = some true := by
  have h := c4_capacity_amended exC4w [("His", 10)] [("His", 42)] (by decide) (by decide)
    (by decide) (by decide) (by decide) (by decide) (by decide) (by decide)
  cases hcs : classrooms_stage exC4w with
  | none => exact absurd hcs (by decide)
  | some pr =>
    have h2 := h pr (by rw [hcs]; rfl)
    exact congrArg some (decide_eq_true h2)

unseal Rat.add Rat.mul Rat.sub Rat.inv in
/-- C10, counterexample.  On `exC10` the ceiling is 2 but classroom 1 ends
with 3 students: subject F's student target is driven to -1 by the
unconditional balancing pass, its classroom-0 cell (no classroom-0 teacher)
is assigned -1 and then skipped by the `> 0 or > 0` guard, while classroom
0's capacity was credited back — later subjects fill the phantom capacity. -/
theorem c10_ceiling_counterexample :
    (optimize_teacher_allocation exC10).map
        (fun r => r.classroom_allocation.map ClassroomAlloc.students_assigned) =
      some [3, 2, 2, 2, 2] ∧ max_size_q exC10 = 2 := by decide

unseal Rat.add Rat.mul Rat.sub Rat.inv in
/-- Witness for the amended C10 at a concrete input. -/
theorem c10_ceiling_witness :
    ((classrooms_stage exC10w).map fun pr =>
        ((pr.1 : List ClassroomAlloc).map ClassroomAlloc.students_assigned).all
          fun q => decide (q ≤ max_size_q exC10w)) = some true := by
  have h := c10_ceiling_amended exC10w [("Geo", 2)] [("Geo", 10)] (by decide) (by decide)
    (by decide) (by decide) (by decide) (by decide) (by decide)
  cases hcs : classrooms_stage exC10w with
  | none => exact absurd hcs (by decide)
  | some pr =>
    have h2 := h pr (by rw [hcs]; rfl)
    refine congrArg some ?_
    rw [List.all_eq_true]
    intro x hx
    obtain ⟨c, hc, rfl⟩ := List.mem_map.mp hx
    exact decide_eq_true (h2 c hc)

end TeacherAlloc
